import Mathlib

/-!
Shallow embedding of the nyat SAT solver core (`src/nyat-sat/src/sat.rs`) and
verification of the specification claims about it.

Conventions of the embedding:
* Rust `usize` indices are `Nat`; vectors are Lean `List`s in the same order.
* Rust panics (failed `assert!`/`panic!()`, out-of-bounds indexing,
  `Option::unwrap` on `None`, `usize` underflow) are modelled by `Run.crash`.
* Unbounded `loop`/`while` constructs recurse on an explicit fuel parameter;
  exhausting fuel yields `Run.outOfFuel`, kept distinct from a panic.
* `Vec::push`/`Vec::pop` stacks (`dpll_stack`) are Lean lists with the HEAD as
  the top of the stack (the end of the Rust `Vec`).
* The `VecDeque` used for unit propagation is a list in the same element order
  as the Rust deque: `push_back` appends at the end and `pop_back` takes the
  last element.
* The `info!("propagated: {}", id)` log line emitted at the head of each
  propagation step is modelled as a ghost list of variable ids, so that the
  processing order of the propagation queue is observable.
-/

namespace Nyat

/-- `Literal { id, sign }` from sat.rs. -/
structure Literal where
  id : Nat
  sign : Bool
deriving DecidableEq, Repr

/-- `Clause(Vec<Literal>)` from sat.rs (the newtype is flattened to a list). -/
abbrev Clause := List Literal

/-- `VariableState` from sat.rs. -/
inductive VariableState where
  | notAssigned
  | assigned (sign : Bool) (decisionLevel : Nat)
deriving DecidableEq, Repr

/-- `VariableState::sign`. -/
def VariableState.signQ : VariableState → Option Bool
  | .notAssigned => none
  | .assigned s _ => some s

/-- `VariableState::decision_level`. -/
def VariableState.decisionLevelQ : VariableState → Option Nat
  | .notAssigned => none
  | .assigned _ d => some d

/-- `VariableState::is_not_assigned`. -/
def VariableState.isNotAssigned : VariableState → Bool
  | .notAssigned => true
  | .assigned _ _ => false

/-- `AssignmentState` from sat.rs (trail entry kinds). -/
inductive AssignmentState where
  | first
  | second
  | propagated (c : Nat)
deriving DecidableEq, Repr

/-- `TaggedClause` from sat.rs; `w1, w2` are the two entries of `watched`. -/
structure TaggedClause where
  clause : Clause
  learnt : Bool
  w1 : Literal
  w2 : Literal
deriving DecidableEq, Repr

/-- `SatProblem` from sat.rs. -/
structure SatProblem where
  nVariables : Nat
  clauses : List Clause
deriving DecidableEq, Repr

/-- `SatSolver` from sat.rs. `vars` is the `variables` field (renamed because
`variables` is reserved in Lean); `dpllStack` head is the top of the Rust `Vec`. -/
structure SatSolver where
  problem : SatProblem
  clauses : List TaggedClause
  vars : List VariableState
  watch : List (List Nat)
  dpllStack : List (Nat × AssignmentState)
  decisionLevel : Nat
  conflictCount : Nat
deriving DecidableEq, Repr

/-- Execution result: a normal value, fuel exhaustion of the embedding, or a
Rust panic (failed assertion, out-of-bounds index, unwrap of `None`). -/
inductive Run (α : Type) where
  | ok (a : α)
  | outOfFuel
  | crash
deriving DecidableEq, Repr

def Run.bind {α β : Type} : Run α → (α → Run β) → Run β
  | .ok a, f => f a
  | .outOfFuel, _ => .outOfFuel
  | .crash, _ => .crash

instance : Monad Run where
  pure := Run.ok
  bind := Run.bind

/-- Rust indexing / `unwrap`: `none` is a panic. -/
def Run.ofOption {α : Type} : Option α → Run α
  | some a => .ok a
  | none => .crash

/-- `Clause::get_index`: index of the first literal with the given variable. -/
def get_index (clause : Clause) (id : Nat) : Option Nat :=
  go clause 0
where
  go : Clause → Nat → Option Nat
    | [], _ => none
    | l :: rest, i => if l.id == id then some i else go rest (i + 1)

/-- Loop body of `Clause::resolution` for one pair of positions `il` (from the
left clause) and `kr` (from the right clause), updating the accumulator
`(left_valids, right_valids, succeeded)`. -/
def resInnerStep (il : Nat × Literal) (acc : List Bool × List Bool × Bool)
    (kr : Nat × Literal) : List Bool × List Bool × Bool :=
  if il.2.id == kr.2.id && il.2.sign != kr.2.sign then
    (acc.1.set il.1 false, acc.2.1.set kr.1 false, true)
  else if il.2.id == kr.2.id then
    (acc.1, acc.2.1.set kr.1 false, acc.2.2)
  else acc

/-- The inner `for k in 0..right.len()` loop of `Clause::resolution`. -/
def resOuterStep (right : Clause) (acc : List Bool × List Bool × Bool)
    (il : Nat × Literal) : List Bool × List Bool × Bool :=
  right.enum.foldl (resInnerStep il) acc

/-- `Clause::resolution` from sat.rs, translated loop by loop: the nested
`for i`/`for k` loops become folds over the enumerated clauses, carrying the
`left_valids`/`right_valids` arrays and the `succeeded` flag. -/
def resolution (left right : Clause) : Option Clause :=
  let arrays := left.enum.foldl (resOuterStep right)
    (List.replicate left.length true, List.replicate right.length true, false)
  if arrays.2.2 then
    some (((left.enum.filter (fun il => arrays.1.getD il.1 true)).map (·.2))
        ++ ((right.enum.filter (fun kr => arrays.2.1.getD kr.1 true)).map (·.2)))
  else none

/-- `true` iff the complement of `l` (same variable, opposite sign) occurs in `c`. -/
def complementIn (l : Literal) (c : Clause) : Bool :=
  c.any (fun r => l.id == r.id && l.sign != r.sign)

/-- `true` iff the variable of `l` occurs in `c` (with either sign). -/
def varIn (l : Literal) (c : Clause) : Bool :=
  c.any (fun r => r.id == l.id)

/-- Declarative description of `Clause::resolution` (the amended claim C4):
defined iff some left literal clashes (same variable, opposite sign) with some
right literal; a left literal survives iff its complement does not occur in the
right clause; a right literal survives iff its variable does not occur in the
left clause at all; survivors keep their order, left block first. -/
def resolutionSpec (left right : Clause) : Option Clause :=
  if left.any (fun l => complementIn l right) then
    some ((left.filter (fun l => !complementIn l right))
        ++ (right.filter (fun r => !varIn r left)))
  else none

/-- The variable-level removal rule stated by claim C4 / spec §4.1: every
occurrence (on both sides) of every variable that has an opposite-sign clash is
removed, and for any other variable occurring in both clauses the right
occurrence is dropped. -/
def resolutionClaimC4 (left right : Clause) : Option Clause :=
  let clashVar := fun (v : Nat) =>
    left.any (fun l => l.id == v && right.any (fun r => r.id == v && r.sign != l.sign))
  if left.any (fun l => complementIn l right) then
    some ((left.filter (fun l => !clashVar l.id))
        ++ (right.filter (fun r => !clashVar r.id && !varIn r left)))
  else none

/-- Truth of a clause (a disjunction) under a total assignment. -/
def clauseSat (σ : Nat → Bool) (c : Clause) : Bool :=
  c.any (fun l => σ l.id == l.sign)

/-- `v` occurs with opposite signs in `left` and `right` (a pivot variable). -/
@[reducible] def isPivot (v : Nat) (left right : Clause) : Prop :=
  ∃ l ∈ left, ∃ r ∈ right, l.id = v ∧ r.id = v ∧ l.sign ≠ r.sign

/-! ### Solver state accessors (`self.xxx[i]` reads and writes) -/

/-- Read `self.variables[i]` (panic when out of bounds). -/
def getVar (s : SatSolver) (i : Nat) : Run VariableState :=
  Run.ofOption (s.vars.get? i)

/-- Write `self.variables[i] = v` (panic when out of bounds). -/
def setVar (s : SatSolver) (i : Nat) (v : VariableState) : Run SatSolver :=
  if i < s.vars.length then .ok { s with vars := s.vars.set i v } else .crash

/-- Read `self.watch[i]`. -/
def getWatchList (s : SatSolver) (i : Nat) : Run (List Nat) :=
  Run.ofOption (s.watch.get? i)

/-- Write `self.watch[i] = w`. -/
def setWatchList (s : SatSolver) (i : Nat) (w : List Nat) : Run SatSolver :=
  if i < s.watch.length then .ok { s with watch := s.watch.set i w } else .crash

/-- `self.watch[i].push(cid)`. -/
def pushWatch (s : SatSolver) (i : Nat) (cid : Nat) : Run SatSolver := do
  let w ← getWatchList s i
  setWatchList s i (w ++ [cid])

/-- Read `self.clauses[cid]`. -/
def getTagged (s : SatSolver) (cid : Nat) : Run TaggedClause :=
  Run.ofOption (s.clauses.get? cid)

/-- `self.clauses[cid].watched[slot] = l`. -/
def setWatched (s : SatSolver) (cid : Nat) (slot : Nat) (l : Literal) : Run SatSolver :=
  match s.clauses.get? cid with
  | none => .crash
  | some tc =>
    let tc2 := if slot == 0 then { tc with w1 := l } else { tc with w2 := l }
    .ok { s with clauses := s.clauses.set cid tc2 }

/-- Set both entries of `self.clauses[cid].watched`. -/
def setWatchedPair (s : SatSolver) (cid : Nat) (la lb : Literal) : Run SatSolver :=
  match s.clauses.get? cid with
  | none => .crash
  | some tc => .ok { s with clauses := s.clauses.set cid { tc with w1 := la, w2 := lb } }

/-- `self.decision_level -= 1` (`usize` underflow panics). -/
def decLevel (s : SatSolver) : Run SatSolver :=
  if s.decisionLevel == 0 then .crash
  else .ok { s with decisionLevel := s.decisionLevel - 1 }

/-! ### `SatProblem::check_assingemnt` and assignment extraction -/

/-- Inner literal loop of `check_assingemnt` for one clause (short-circuits on
the first satisfied literal, exactly like the Rust `break`). -/
def checkClause (assignment : List Bool) : Clause → Run Bool
  | [] => .ok false
  | x :: rest => do
    let b ← Run.ofOption (assignment.get? x.id)
    if b == x.sign then .ok true else checkClause assignment rest

/-- Outer clause loop of `check_assingemnt` (short-circuits on the first
unsatisfied clause, exactly like the Rust early `return false`). -/
def checkClauses (assignment : List Bool) : List Clause → Run Bool
  | [] => .ok true
  | c :: rest => do
    let tf ← checkClause assignment c
    if tf then checkClauses assignment rest else .ok false

/-- `SatProblem::check_assingemnt` (name kept verbatim, typo included). -/
def check_assingemnt (p : SatProblem) (assignment : List Bool) : Run Bool :=
  checkClauses assignment p.clauses

/-- `self.variables.iter().map(|&x| x.sign().unwrap()).collect()`. -/
def extractAssign : List VariableState → Run (List Bool)
  | [] => .ok []
  | v :: rest => do
    let b ← Run.ofOption v.signQ
    let bs ← extractAssign rest
    .ok (b :: bs)

/-! ### `SatSolver::new`, `first_signs`, `init_watch` -/

/-- Construction of the tagged clause list in `SatSolver::new`
(`x[0]` panics on an empty clause). -/
def newClauses : List Clause → Run (List TaggedClause)
  | [] => .ok []
  | c :: rest => do
    let l0 ← Run.ofOption c.head?
    let tcs ← newClauses rest
    .ok (⟨c, false, l0, l0⟩ :: tcs)

/-- `SatSolver::new`. -/
def SatSolver.new (p : SatProblem) : Run SatSolver := do
  let clauses ← newClauses p.clauses
  .ok { problem := p, clauses := clauses,
        vars := List.replicate p.nVariables .notAssigned,
        watch := List.replicate p.nVariables [],
        dpllStack := [], decisionLevel := 0, conflictCount := 0 }

/-- Literal counting loop of `first_signs` over one clause. -/
def countClause : List Literal → List Nat → List Nat → Run (List Nat × List Nat)
  | [], count, total => .ok (count, total)
  | l :: rest, count, total => do
    let count ←
      if l.sign then
        if l.id < count.length then .ok (count.set l.id (count.getD l.id 0 + 1))
        else Run.crash
      else .ok count
    if l.id < total.length then
      countClause rest count (total.set l.id (total.getD l.id 0 + 1))
    else Run.crash

/-- Outer clause loop of `first_signs`. -/
def countLits : List TaggedClause → List Nat → List Nat → Run (List Nat × List Nat)
  | [], count, total => .ok (count, total)
  | tc :: rest, count, total => do
    let (count, total) ← countClause tc.clause count total
    countLits rest count total

/-- `SatSolver::first_signs`. -/
def first_signs (s : SatSolver) : Run (List Bool) := do
  let (count, total) ← countLits s.clauses
    (List.replicate s.problem.nVariables 0) (List.replicate s.problem.nVariables 0)
  .ok ((List.range s.problem.nVariables).map (fun i =>
    if count.getD i 0 > total.getD i 0 / 2 then false else true))

/-- Body of `init_watch`, iterating `clause_id` over the clause store;
`count` is the number of clauses still to process. -/
def iwGo : Nat → SatSolver → Nat → Run SatSolver
  | 0, s, _ => .ok s
  | count + 1, s, clause_id => do
    let tc ← getTagged s clause_id
    if tc.clause.length ≥ 2 then do
      let l0 ← Run.ofOption (tc.clause.get? 0)
      let l1 ← Run.ofOption (tc.clause.get? 1)
      let s ← pushWatch s l0.id clause_id
      let s ← pushWatch s l1.id clause_id
      let s ← setWatchedPair s clause_id l0 l1
      iwGo count s (clause_id + 1)
    else do
      let l0 ← Run.ofOption (tc.clause.get? 0)   -- `clause[0]` panics on length 0
      let s ← setWatchedPair s clause_id l0 l0
      iwGo count s (clause_id + 1)

/-- `SatSolver::init_watch`. -/
def init_watch (s : SatSolver) : Run SatSolver :=
  iwGo s.clauses.length s 0

/-! ### `learn_clause` -/

/-- The classification loop of `learn_clause`: split the clause literals into
the assigned ones (paired with their decision level) and the unassigned ones,
in clause order. -/
def classifyLits (s : SatSolver) : Clause → Run (List (Literal × Nat) × List Literal)
  | [] => .ok ([], [])
  | l :: rest => do
    let v ← getVar s l.id
    let (a, na) ← classifyLits s rest
    match v with
    | .notAssigned => .ok (a, l :: na)
    | .assigned _ d => .ok ((l, d) :: a, na)

/-- `Iterator::max_by` on the decision level: the LAST of equal maxima wins,
as in Rust. -/
def maxByLevel : List (Literal × Nat) → Option (Literal × Nat)
  | [] => none
  | x :: rest => some (rest.foldl (fun m y => if y.2 < m.2 then m else y) x)

/-- `SatSolver::learn_clause`. The `panic!()` on a fully assigned clause and
the assertion that some literal is assigned are `Run.crash`. -/
def learn_clause (s : SatSolver) (clause : Clause) : Run SatSolver := do
  let (assignedLits, notAssignedLits) ← classifyLits s clause
  let clause_id := s.clauses.length
  let (literal_1, literal_2) ←
    if notAssignedLits.length ≥ 2 then
      Run.ok (notAssignedLits.getD 0 ⟨0, true⟩, notAssignedLits.getD 1 ⟨0, true⟩)
    else if notAssignedLits.length == 1 then
      if clause.length ≥ 2 then
        if assignedLits.isEmpty then Run.crash  -- assert!(!assigned_literals.is_empty())
        else do
          let m ← Run.ofOption (maxByLevel assignedLits)
          Run.ok (notAssignedLits.getD 0 ⟨0, true⟩, m.1)
      else do
        let l0 ← Run.ofOption clause.head?
        Run.ok (l0, l0)
    else Run.crash                              -- panic!()
  let s := { s with clauses := s.clauses ++ [⟨clause, true, literal_1, literal_2⟩] }
  let s ← pushWatch s literal_1.id clause_id
  let s ← pushWatch s literal_2.id clause_id
  .ok s

/-! ### `assign_unit_clause` -/

/-- Result of scanning one clause in `assign_unit_clause`: either some literal
is already satisfied (the `continue 'l1`), or the list of unknown literals. -/
inductive AucScanRes where
  | satisfied
  | unknowns (us : List Literal)
deriving DecidableEq, Repr

/-- The literal scan of one clause in `assign_unit_clause`. -/
def aucScan (s : SatSolver) : Clause → Run AucScanRes
  | [] => .ok (.unknowns [])
  | l :: rest => do
    let v ← getVar s l.id
    match v.signQ with
    | some sign =>
      if sign == l.sign then .ok .satisfied else aucScan s rest
    | none => do
      match ← aucScan s rest with
      | .satisfied => .ok .satisfied
      | .unknowns us => .ok (.unknowns (l :: us))

/-- Result of one full pass over the clause store in `assign_unit_clause`. -/
inductive AucPassRes where
  | foundEmpty (s : SatSolver)               -- the early `return false`
  | done (s : SatSolver) (updated : Bool)
deriving DecidableEq, Repr

/-- The solver state carried by a pass result. -/
def AucPassRes.state : AucPassRes → SatSolver
  | .foundEmpty s => s
  | .done s _ => s

/-- One pass of the `for tagged_clause in &self.clauses` loop. -/
def aucPass (s : SatSolver) (updated : Bool) : List TaggedClause → Run AucPassRes
  | [] => .ok (.done s updated)
  | tc :: rest => do
    match ← aucScan s tc.clause with
    | .satisfied => aucPass s updated rest
    | .unknowns us =>
      if us.isEmpty then .ok (.foundEmpty s)
      else if us.length == 1 then do
        let l ← Run.ofOption us.head?
        let s ← setVar s l.id (.assigned l.sign s.decisionLevel)
        aucPass s true rest
      else aucPass s updated rest

/-- `SatSolver::assign_unit_clause` (the outer `loop` recurses on fuel). -/
def assign_unit_clause : Nat → SatSolver → Run (Bool × SatSolver)
  | 0, _ => .outOfFuel
  | fuel + 1, s => do
    match ← aucPass s false s.clauses with
    | .foundEmpty s => .ok (false, s)
    | .done s updated =>
      if updated then assign_unit_clause fuel s else .ok (true, s)

/-! ### `try_next_assignment` -/

/-- The scan loop of `try_next_assignment`; `count` many ids remain. -/
def tnaGo (s : SatSolver) : Nat → Nat → Run (Bool × SatSolver)
  | _, 0 => .ok (false, s)
  | k, count + 1 => do
    let v ← getVar s k
    if v.isNotAssigned then
      let s := { s with dpllStack := (k, AssignmentState.first) :: s.dpllStack }
      .ok (true, { s with decisionLevel := s.decisionLevel + 1 })
    else tnaGo s (k + 1) count

/-- `SatSolver::try_next_assignment`. -/
def try_next_assignment (s : SatSolver) (i : Nat) : Run (Bool × SatSolver) :=
  tnaGo s i (s.problem.nVariables - i)

/-! ### `try_backtrack` -/

/-- The `num_current_decision_level` counting loop of `try_backtrack`:
literals of the clause whose variable is assigned at level `lvl` or is
unassigned. The code passes `lvl := s.decisionLevel` at the moment of the
check. -/
def countAtLevel (s : SatSolver) (lvl : Nat) : Clause → Run Nat
  | [] => .ok 0
  | l :: rest => do
    let v ← getVar s l.id
    let n ← countAtLevel s lvl rest
    match v.decisionLevelQ with
    | some level => if level == lvl then .ok (n + 1) else .ok n
    | none => .ok (n + 1)

/-- The `second_decision_level` computation of `try_backtrack`: maximum
decision level of an assigned literal of the clause at a level different from
the current one; 0 when there is none. -/
def secondLevel (s : SatSolver) : Clause → Nat → Run Nat
  | [], acc => .ok acc
  | l :: rest, acc => do
    let v ← getVar s l.id
    match v.decisionLevelQ with
    | some level =>
      if level != s.decisionLevel && level > acc then secondLevel s rest level
      else secondLevel s rest acc
    | none => secondLevel s rest acc

/-- The backjump loop of `try_backtrack` (the inner `while let` after the
1-UIP test succeeded). -/
def bjLoop : Nat → SatSolver → Clause → Nat → Run (Bool × SatSolver)
  | 0, _, _, _ => .outOfFuel
  | fuel + 1, s, clause, second =>
    match s.dpllStack with
    | [] => do
      if second != 0 then Run.crash          -- assert_eq!(second_decision_level, 0)
      else do
        let s ← learn_clause s clause
        let (_, s) ← assign_unit_clause fuel s   -- return value discarded by the code
        let (t, s) ← try_next_assignment s 0
        if t then .ok (true, s) else Run.crash   -- assert!(t)
    | (k, st) :: rest =>
      let s := { s with dpllStack := rest }
      match st with
      | .first =>
        if s.decisionLevel ≤ second then do
          let s := { s with dpllStack := (k, AssignmentState.first) :: rest }
          let s ← learn_clause s clause
          .ok (true, s)
        else do
          let s ← setVar s k .notAssigned
          let s ← decLevel s
          bjLoop fuel s clause second
      | .second =>
        if s.decisionLevel ≤ second then do
          let s := { s with dpllStack := (k, AssignmentState.second) :: rest }
          let s ← learn_clause s clause
          .ok (true, s)
        else do
          let s ← setVar s k .notAssigned
          let s ← decLevel s
          bjLoop fuel s clause second
      | .propagated _ => do
        let s ← setVar s k .notAssigned
        bjLoop fuel s clause second

/-- The main popping loop of `try_backtrack`. -/
def btLoop : Nat → SatSolver → Clause → Run (Bool × SatSolver)
  | 0, _, _ => .outOfFuel
  | fuel + 1, s, clause =>
    match s.dpllStack with
    | [] => .ok (false, s)                   -- trail exhausted: UNSAT
    | (k, st) :: rest =>
      let s := { s with dpllStack := rest }
      match st with
      | .first => .ok (true, { s with dpllStack := (k, AssignmentState.second) :: rest })
      | .second => do
        let s ← setVar s k .notAssigned
        let s ← decLevel s
        btLoop fuel s clause
      | .propagated cid => do
        let s ← setVar s k .notAssigned
        let tc ← getTagged s cid
        match resolution clause tc.clause with
        | none => btLoop fuel s clause
        | some newClause => do
          let n ← countAtLevel s s.decisionLevel newClause
          if n == 1 then do
            let second ← secondLevel s newClause 0
            if s.decisionLevel > second then bjLoop fuel s newClause second
            else Run.crash                   -- assert!(decision_level > second)
          else btLoop fuel s newClause

/-- `SatSolver::try_backtrack`. -/
def try_backtrack (fuel : Nat) (s : SatSolver) (clause_id : Nat) :
    Run (Bool × SatSolver) := do
  let s := { s with conflictCount := s.conflictCount + 1 }
  let tc ← getTagged s clause_id
  btLoop fuel s tc.clause

/-! ### Unit propagation (two-watched-literal) -/

/-- `VecDeque::push_back`. -/
def dequePushBack (q : List Nat) (i : Nat) : List Nat := q ++ [i]

/-- `VecDeque::pop_back` (what the propagation loop in `solve` uses). -/
def dequePopBack (q : List Nat) : Option (Nat × List Nat) :=
  match q.getLast? with
  | some x => some (x, q.dropLast)
  | none => none

/-- `VecDeque::pop_front` (used only by the FIFO contrast variant for C7). -/
def dequePopFront (q : List Nat) : Option (Nat × List Nat) :=
  match q with
  | [] => none
  | x :: rest => some (x, rest)

/-- The `next_literal` search loop of the propagation step; the LAST literal
meeting the conditions wins because the Rust loop keeps overwriting. `w1, w2`
are the watched literals read before the loop. -/
def findNext (s : SatSolver) (id : Nat) (w1 w2 : Literal) :
    List Literal → Option Literal → Run (Option Literal)
  | [], acc => .ok acc
  | l :: rest, acc =>
    if !(w1.id == id || w2.id == id) then Run.crash   -- assert! inside the loop
    else if l.id != id then do
      let v ← getVar s l.id
      if v.signQ != some (!l.sign)
          && (w1.id != id || w2.id != l.id)
          && (w2.id != id || w1.id != l.id) then
        findNext s id w1 w2 rest (some l)
      else
        findNext s id w1 w2 rest acc
    else findNext s id w1 w2 rest acc

/-- Result of the `for &clause_id in &visit_clause_ids` loop: proceed with the
batch, abort it after a successful backtrack (`continue 'l1`), or UNSAT. -/
inductive VisitRes where
  | proceed (s : SatSolver) (q : List Nat)
  | again (s : SatSolver)
  | unsatR (s : SatSolver)
deriving DecidableEq, Repr

/-- The clause visiting loop of one propagation step for variable `id`. -/
def visitClauses (fuel : Nat) (id : Nat) : SatSolver → List Nat → List Nat → Run VisitRes
  | s, q, [] => .ok (.proceed s q)
  | s, q, clause_id :: rest => do
    let tc ← getTagged s clause_id
    if tc.clause.length == 1 then Run.crash           -- assert!(clause.len() != 1)
    else do
    let prev_i ← Run.ofOption (get_index tc.clause id)  -- assert is_some + unwrap
    match (if tc.w1.id == id then some 0 else if tc.w2.id == id then some 1
           else (none : Option Nat)) with
    | none => visitClauses fuel id s q rest           -- neither watched slot: skip
    | some slot => do
      let plit ← Run.ofOption (tc.clause.get? prev_i)
      let v ← getVar s id
      let vsign ← Run.ofOption v.signQ
      if plit.sign == vsign then visitClauses fuel id s q rest
      else do
        let next ← findNext s id tc.w1 tc.w2 tc.clause none
        match next with
        | some nl =>
          if id == nl.id then Run.crash               -- assert!(id != next_literal_id)
          else if !((if slot == 0 then tc.w1 else tc.w2).id == id) then Run.crash
          else if (if slot == 0 then tc.w1 else tc.w2).id == nl.id then Run.crash
          else do
            let s ← setWatched s clause_id slot nl
            let wl ← getWatchList s id
            let s ← setWatchList s id (wl.filter (fun x => x != clause_id))
            let s ← pushWatch s nl.id clause_id
            visitClauses fuel id s q rest
        | none => do
          let literal2 := if slot == 0 then tc.w2 else tc.w1
          let v2 ← getVar s literal2.id
          match v2 with
          | .notAssigned => do
            let s ← setVar s literal2.id (.assigned literal2.sign s.decisionLevel)
            let s := { s with
              dpllStack := (literal2.id, AssignmentState.propagated clause_id) :: s.dpllStack }
            visitClauses fuel id s (dequePushBack q literal2.id) rest
          | .assigned sg _ =>
            if sg != literal2.sign then do            -- conflict
              let (succeeded, s) ← try_backtrack fuel s clause_id
              if succeeded then .ok (.again s) else .ok (.unsatR s)
            else visitClauses fuel id s q rest

/-- One dequeued id of the propagation loop: snapshot `watch[id]` and visit the
snapshot. -/
def propVisit (fuel : Nat) (s : SatSolver) (id : Nat) (q : List Nat) : Run VisitRes := do
  let snapshot ← getWatchList s id
  visitClauses fuel id s q snapshot

/-- Result of a whole propagation batch. -/
inductive PropRes where
  | clean (s : SatSolver) (log : List Nat)
  | again (s : SatSolver)
  | unsatR (s : SatSolver)
deriving DecidableEq, Repr

/-- The `while let Some(id) = unit_propagation_stack.pop_back()` loop of
`solve`; `visited` is the hash set, `log` the ghost list of processed ids. -/
def propLoop : Nat → SatSolver → List Nat → List Nat → List Nat → Run PropRes
  | 0, _, _, _, _ => .outOfFuel
  | fuel + 1, s, q, visited, log =>
    match dequePopBack q with
    | none => .ok (.clean s log)
    | some (id, q) =>
      if visited.contains id then propLoop fuel s q visited log
      else do
        match ← propVisit fuel s id q with
        | .proceed s q => propLoop fuel s q (id :: visited) (log ++ [id])
        | .again s => .ok (.again s)
        | .unsatR s => .ok (.unsatR s)

/-- One unit-propagation batch as run by `solve` after realizing the top trail
entry on variable `i` (the deque is seeded with `i`). -/
def propagateBatch (fuel : Nat) (s : SatSolver) (i : Nat) : Run PropRes :=
  propLoop fuel s (dequePushBack [] i) [] []

/-! ### `solve` -/

/-- Realization of the top trail entry into the assignment store (the
`match self.dpll_stack.last().unwrap().1` block at the head of the `'l1`
loop): `first` assigns the heuristic polarity, `second` flips the recorded
sign, a `propagated` top is `panic!()`. -/
def realizeTop (firstSigns : List Bool) (s : SatSolver) (i : Nat) :
    AssignmentState → Run SatSolver
  | .first => do
    let sg ← Run.ofOption (firstSigns.get? i)
    setVar s i (.assigned sg s.decisionLevel)
  | .second => do
    let v ← getVar s i
    let oldSign ← Run.ofOption v.signQ
    setVar s i (.assigned (!oldSign) s.decisionLevel)
  | .propagated _ => Run.crash

/-- The `'l1: loop` of `SatSolver::solve`. -/
def solveLoop : Nat → List Bool → SatSolver → Run (Option (List Bool) × SatSolver)
  | 0, _, _ => .outOfFuel
  | fuel + 1, firstSigns, s => do
    let top ← Run.ofOption s.dpllStack.head?  -- assert!(!dpll_stack.is_empty()) + unwrap
    let i := top.1
    let s ← realizeTop firstSigns s i top.2
    match ← propagateBatch fuel s i with
    | .again s => solveLoop fuel firstSigns s    -- continue 'l1
    | .unsatR s => .ok (none, s)
    | .clean s _ => do
      let (t, s) ← try_next_assignment s i
      if t then solveLoop fuel firstSigns s
      else do
        let xs ← extractAssign s.vars
        let ok ← check_assingemnt s.problem xs
        if ok then .ok (some xs, s) else Run.crash   -- assert!(check_assingemnt)

/-- `SatSolver::solve`. -/
def solve (fuel : Nat) (s : SatSolver) : Run (Option (List Bool) × SatSolver) := do
  let (success, s) ← assign_unit_clause fuel s
  if !success then .ok (none, s)
  else do
    let s ← init_watch s
    let fs ← first_signs s
    let (t, s) ← try_next_assignment s 0
    if !t then do
      let xs ← extractAssign s.vars
      let ok ← check_assingemnt s.problem xs
      if ok then .ok (some xs, s) else Run.crash
    else solveLoop fuel fs s

/-- `SatSolver::new` followed by `solve`. -/
def solveFromProblem (fuel : Nat) (p : SatProblem) : Run (Option (List Bool) × SatSolver) := do
  let s ← SatSolver.new p
  solve fuel s

/-! ### Contrast variants used to state refuted claims -/

/-- Variant of `btLoop` for claim C6: the 1-UIP count compares decision levels
against the fixed level `entry` that was current when conflict analysis was
entered, as the claim states, instead of the current (already decremented)
`s.decisionLevel`. Everything else is identical to `btLoop`. -/
def btLoopEntry (entry : Nat) : Nat → SatSolver → Clause → Run (Bool × SatSolver)
  | 0, _, _ => .outOfFuel
  | fuel + 1, s, clause =>
    match s.dpllStack with
    | [] => .ok (false, s)
    | (k, st) :: rest =>
      let s := { s with dpllStack := rest }
      match st with
      | .first => .ok (true, { s with dpllStack := (k, AssignmentState.second) :: rest })
      | .second => do
        let s ← setVar s k .notAssigned
        let s ← decLevel s
        btLoopEntry entry fuel s clause
      | .propagated cid => do
        let s ← setVar s k .notAssigned
        let tc ← getTagged s cid
        match resolution clause tc.clause with
        | none => btLoopEntry entry fuel s clause
        | some newClause => do
          let n ← countAtLevel s entry newClause
          if n == 1 then do
            let second ← secondLevel s newClause 0
            if s.decisionLevel > second then bjLoop fuel s newClause second
            else Run.crash
          else btLoopEntry entry fuel s newClause

/-- Variant of `try_backtrack` conforming to claim C6 (1-UIP count against the
entry decision level). -/
def try_backtrackEntry (fuel : Nat) (s : SatSolver) (clause_id : Nat) :
    Run (Bool × SatSolver) := do
  let s := { s with conflictCount := s.conflictCount + 1 }
  let tc ← getTagged s clause_id
  btLoopEntry s.decisionLevel fuel s tc.clause

/-- Variant of `propLoop` for claim C7: identical except that pending ids are
taken from the FRONT of the deque (first-in first-out), as the claim states. -/
def propLoopFront : Nat → SatSolver → List Nat → List Nat → List Nat → Run PropRes
  | 0, _, _, _, _ => .outOfFuel
  | fuel + 1, s, q, visited, log =>
    match dequePopFront q with
    | none => .ok (.clean s log)
    | some (id, q) =>
      if visited.contains id then propLoopFront fuel s q visited log
      else do
        match ← propVisit fuel s id q with
        | .proceed s q => propLoopFront fuel s q (id :: visited) (log ++ [id])
        | .again s => .ok (.again s)
        | .unsatR s => .ok (.unsatR s)

/-- FIFO variant of `propagateBatch` (claim C7). -/
def propagateBatchFIFO (fuel : Nat) (s : SatSolver) (i : Nat) : Run PropRes :=
  propLoopFront fuel s (dequePushBack [] i) [] []

/-- Variant of `solveLoop` for claim C9: after a clean propagation batch the
decision scan starts from the id on top of the trail AT THAT MOMENT (after the
batch pushed its `propagated` entries), as the claim states, instead of the id
`i` read at the start of the iteration. -/
def solveLoopTop : Nat → List Bool → SatSolver → Run (Option (List Bool) × SatSolver)
  | 0, _, _ => .outOfFuel
  | fuel + 1, firstSigns, s => do
    let top ← Run.ofOption s.dpllStack.head?
    let i := top.1
    let s ← realizeTop firstSigns s i top.2
    match ← propagateBatch fuel s i with
    | .again s => solveLoopTop fuel firstSigns s
    | .unsatR s => .ok (none, s)
    | .clean s _ => do
      let newTop ← Run.ofOption s.dpllStack.head?
      let (t, s) ← try_next_assignment s newTop.1
      if t then solveLoopTop fuel firstSigns s
      else do
        let xs ← extractAssign s.vars
        let ok ← check_assingemnt s.problem xs
        if ok then .ok (some xs, s) else Run.crash

/-- `solve` built on `solveLoopTop` (claim C9 contrast variant). -/
def solveTop (fuel : Nat) (s : SatSolver) : Run (Option (List Bool) × SatSolver) := do
  let (success, s) ← assign_unit_clause fuel s
  if !success then .ok (none, s)
  else do
    let s ← init_watch s
    let fs ← first_signs s
    let (t, s) ← try_next_assignment s 0
    if !t then do
      let xs ← extractAssign s.vars
      let ok ← check_assingemnt s.problem xs
      if ok then .ok (some xs, s) else Run.crash
    else solveLoopTop fuel fs s

/-- `SatSolver::new` followed by the C9 contrast variant of `solve`. -/
def solveFromProblemTop (fuel : Nat) (p : SatProblem) : Run (Option (List Bool) × SatSolver) := do
  let s ← SatSolver.new p
  solveTop fuel s

/-! ### Statement helpers -/

/-- The id of the topmost non-`propagated` trail entry (the most recent
decision entry), used by the amended claim C9. -/
def firstNonPropId : List (Nat × AssignmentState) → Option Nat
  | [] => none
  | (k, .first) :: _ => some k
  | (k, .second) :: _ => some k
  | (_, .propagated _) :: rest => firstNonPropId rest

/-- Answer projection of a `solve` run (`none` for panic or fuel exhaustion). -/
def solveAnswer (r : Run (Option (List Bool) × SatSolver)) : Option (Option (List Bool)) :=
  match r with
  | .ok (a, _) => some a
  | _ => none

/-- Final-state projection of a `solve` run. -/
def finalState (r : Run (Option (List Bool) × SatSolver)) : Option SatSolver :=
  match r with
  | .ok (_, s) => some s
  | _ => none

/-- Ghost log projection of a clean propagation batch. -/
def batchLog (r : Run PropRes) : Option (List Nat) :=
  match r with
  | .ok (.clean _ log) => some log
  | _ => none

/-- Decision level of the state produced by a conflict-analysis run. -/
def btLevel (r : Run (Bool × SatSolver)) : Option Nat :=
  match r with
  | .ok (_, s) => some s.decisionLevel
  | _ => none

/-- Watch list of variable `v` (empty when out of range). -/
def watchAt (s : SatSolver) (v : Nat) : List Nat :=
  s.watch.getD v []

/-! ### Concrete problems and solver states used as inputs of counterexamples
and witnesses. The solver states are reachable: each one is the state of a real
run of `solve` on the given problem at the indicated moment. -/

/-- The one-variable problem `{x0}` (the first unit test of sat.rs). -/
def P1 : SatProblem := ⟨1, [[⟨0, true⟩]]⟩

/-- A satisfiable problem (satisfied by `[false, true]`) on which `solve`
panics: `{¬x0 ∨ x1, ¬x0 ∨ ¬x1, x0 ∨ x1}`. -/
def P2 : SatProblem :=
  ⟨2, [[⟨0, false⟩, ⟨1, true⟩], [⟨0, false⟩, ⟨1, false⟩], [⟨0, true⟩, ⟨1, true⟩]]⟩

/-- `{¬x0 ∨ x1, ¬x0 ∨ ¬x1}`: solving it learns the unit clause `¬x0`. -/
def P5 : SatProblem :=
  ⟨2, [[⟨0, false⟩, ⟨1, true⟩], [⟨0, false⟩, ⟨1, false⟩]]⟩

/-- `{¬x0 ∨ x1, ¬x0 ∨ x2}`: deciding `x0` propagates `x1` and `x2` in one
batch. -/
def P7 : SatProblem :=
  ⟨3, [[⟨0, false⟩, ⟨1, true⟩], [⟨0, false⟩, ⟨2, true⟩]]⟩

/-- `{¬x0 ∨ x2}` over three variables: after deciding `x0` the propagation
pushes `x2` on the trail above the decision, while `x1` is still unassigned. -/
def P9 : SatProblem :=
  ⟨3, [[⟨0, false⟩, ⟨2, true⟩]]⟩

/-- The state of the solver on `P7` right after the decision `x0 := true` has
been realized, just before its propagation batch (reached by `solve P7`). -/
def s7state : SatSolver where
  problem := P7
  clauses := [⟨[⟨0, false⟩, ⟨1, true⟩], false, ⟨0, false⟩, ⟨1, true⟩⟩,
              ⟨[⟨0, false⟩, ⟨2, true⟩], false, ⟨0, false⟩, ⟨2, true⟩⟩]
  vars := [.assigned true 1, .notAssigned, .notAssigned]
  watch := [[0, 1], [0], [1]]
  dpllStack := [(0, .first)]
  decisionLevel := 1
  conflictCount := 0

/-- The state of the solver on `P9` right after the decision `x0 := true` has
been realized, just before its propagation batch (reached by `solve P9`). -/
def s9state : SatSolver where
  problem := P9
  clauses := [⟨[⟨0, false⟩, ⟨2, true⟩], false, ⟨0, false⟩, ⟨2, true⟩⟩]
  vars := [.assigned true 1, .notAssigned, .notAssigned]
  watch := [[0], [], [0]]
  dpllStack := [(0, .first)]
  decisionLevel := 1
  conflictCount := 0

/-- A reachable conflict state: solving the 6-variable problem below, the
fifth conflict arrives at this state with conflict clause index 5, while the
trail still holds a `second` entry below the current decision level's
propagated entries, so conflict analysis pops a `second` entry (decrementing
`decision_level`) before its next resolution step. -/
def s6state : SatSolver where
  problem := SatProblem.mk 6 [[⟨4, false⟩, ⟨1, false⟩, ⟨5, true⟩],
    [⟨1, true⟩, ⟨2, false⟩, ⟨0, true⟩],
    [⟨1, true⟩, ⟨3, true⟩],
    [⟨3, true⟩, ⟨1, false⟩, ⟨0, false⟩],
    [⟨3, false⟩, ⟨5, true⟩, ⟨0, true⟩],
    [⟨4, true⟩, ⟨5, false⟩, ⟨3, false⟩],
    [⟨3, false⟩, ⟨4, false⟩, ⟨2, true⟩],
    [⟨4, false⟩, ⟨2, false⟩, ⟨5, true⟩],
    [⟨5, true⟩, ⟨0, false⟩],
    [⟨3, true⟩, ⟨1, false⟩, ⟨5, false⟩],
    [⟨5, false⟩, ⟨4, false⟩, ⟨2, false⟩],
    [⟨3, true⟩, ⟨0, true⟩, ⟨5, true⟩]]
  clauses := [
    ⟨[⟨4, false⟩, ⟨1, false⟩, ⟨5, true⟩], false, ⟨4, false⟩, ⟨5, true⟩⟩,
    ⟨[⟨1, true⟩, ⟨2, false⟩, ⟨0, true⟩], false, ⟨1, true⟩, ⟨0, true⟩⟩,
    ⟨[⟨1, true⟩, ⟨3, true⟩], false, ⟨1, true⟩, ⟨3, true⟩⟩,
    ⟨[⟨3, true⟩, ⟨1, false⟩, ⟨0, false⟩], false, ⟨3, true⟩, ⟨0, false⟩⟩,
    ⟨[⟨3, false⟩, ⟨5, true⟩, ⟨0, true⟩], false, ⟨0, true⟩, ⟨5, true⟩⟩,
    ⟨[⟨4, true⟩, ⟨5, false⟩, ⟨3, false⟩], false, ⟨3, false⟩, ⟨5, false⟩⟩,
    ⟨[⟨3, false⟩, ⟨4, false⟩, ⟨2, true⟩], false, ⟨2, true⟩, ⟨4, false⟩⟩,
    ⟨[⟨4, false⟩, ⟨2, false⟩, ⟨5, true⟩], false, ⟨4, false⟩, ⟨5, true⟩⟩,
    ⟨[⟨5, true⟩, ⟨0, false⟩], false, ⟨5, true⟩, ⟨0, false⟩⟩,
    ⟨[⟨3, true⟩, ⟨1, false⟩, ⟨5, false⟩], false, ⟨3, true⟩, ⟨5, false⟩⟩,
    ⟨[⟨5, false⟩, ⟨4, false⟩, ⟨2, false⟩], false, ⟨2, false⟩, ⟨4, false⟩⟩,
    ⟨[⟨3, true⟩, ⟨0, true⟩, ⟨5, true⟩], false, ⟨3, true⟩, ⟨5, true⟩⟩,
    ⟨[⟨3, true⟩, ⟨0, true⟩, ⟨1, false⟩], true, ⟨3, true⟩, ⟨0, true⟩⟩,
    ⟨[⟨3, false⟩, ⟨0, true⟩], true, ⟨3, false⟩, ⟨0, true⟩⟩,
    ⟨[⟨0, true⟩], true, ⟨0, true⟩, ⟨0, true⟩⟩]
  vars := [.assigned true 0, .assigned true 1, .assigned true 2,
           .assigned true 3, .assigned false 2, .assigned true 0]
  watch := [[8, 3, 13, 14, 14, 12, 1, 4], [1, 2], [6, 10],
            [2, 3, 9, 11, 12, 13, 5], [0, 6, 7, 10], [4, 5, 8, 11, 0, 9, 7]]
  dpllStack := [(3, .second), (4, .propagated 10), (2, .first), (1, .first)]
  decisionLevel := 3
  conflictCount := 4

/-- A solver state whose two variables are both assigned (reachable, e.g. any
state after propagation has assigned everything), used to call `learn_clause`
on a clause with no unassigned literal (claim C8). -/
def s8state : SatSolver where
  problem := ⟨2, [[⟨0, true⟩, ⟨1, true⟩]]⟩
  clauses := [⟨[⟨0, true⟩, ⟨1, true⟩], false, ⟨0, true⟩, ⟨1, true⟩⟩]
  vars := [.assigned true 1, .assigned true 1]
  watch := [[0], [0]]
  dpllStack := [(1, .propagated 0), (0, .first)]
  decisionLevel := 1
  conflictCount := 0

/-- State of a successful run, with a default for failing runs. -/
def runStateD (r : Run SatSolver) (d : SatSolver) : SatSolver :=
  match r with
  | .ok s => s
  | _ => d

/-- State of a clean propagation batch, with a default otherwise. -/
def propCleanStateD (r : Run PropRes) (d : SatSolver) : SatSolver :=
  match r with
  | .ok (.clean s _) => s
  | _ => d

/-- The freshly constructed solver for `P5` (reachable: it is
`SatSolver.new P5`). -/
def s5new : SatSolver where
  problem := P5
  clauses := [⟨[⟨0, false⟩, ⟨1, true⟩], false, ⟨0, false⟩, ⟨0, false⟩⟩,
              ⟨[⟨0, false⟩, ⟨1, false⟩], false, ⟨0, false⟩, ⟨0, false⟩⟩]
  vars := [.notAssigned, .notAssigned]
  watch := [[], []]
  dpllStack := []
  decisionLevel := 0
  conflictCount := 0

/-- The state of the `P5` run at the moment `try_backtrack` calls
`learn_clause` with the derived unit clause `¬x0`: the whole trail has been
popped and both variables unassigned. -/
def s5learn : SatSolver where
  problem := P5
  clauses := [⟨[⟨0, false⟩, ⟨1, true⟩], false, ⟨0, false⟩, ⟨1, true⟩⟩,
              ⟨[⟨0, false⟩, ⟨1, false⟩], false, ⟨0, false⟩, ⟨1, false⟩⟩]
  vars := [.notAssigned, .notAssigned]
  watch := [[0, 1], [0, 1]]
  dpllStack := []
  decisionLevel := 0
  conflictCount := 1

/-- Variant of `btLoop` written from the amended claim C6: the 1-UIP count is
taken against an explicit level parameter `lvl`, initialized to the decision
level at entry of conflict analysis and decremented exactly when a `second`
trail entry is popped, so that it always equals the entry level minus the
number of `second` entries popped so far. -/
def btLoopCur (lvl : Nat) : Nat → SatSolver → Clause → Run (Bool × SatSolver)
  | 0, _, _ => .outOfFuel
  | fuel + 1, s, clause =>
    match s.dpllStack with
    | [] => .ok (false, s)
    | (k, st) :: rest =>
      let s := { s with dpllStack := rest }
      match st with
      | .first => .ok (true, { s with dpllStack := (k, AssignmentState.second) :: rest })
      | .second => do
        let s ← setVar s k .notAssigned
        let s ← decLevel s
        btLoopCur (lvl - 1) fuel s clause
      | .propagated cid => do
        let s ← setVar s k .notAssigned
        let tc ← getTagged s cid
        match resolution clause tc.clause with
        | none => btLoopCur lvl fuel s clause
        | some newClause => do
          let n ← countAtLevel s lvl newClause
          if n == 1 then do
            let second ← secondLevel s newClause 0
            if s.decisionLevel > second then bjLoop fuel s newClause second
            else Run.crash
          else btLoopCur lvl fuel s newClause

/-- The clause has no repeated variable. -/
@[reducible] def nodupIds (c : Clause) : Prop :=
  (c.map Literal.id).Nodup

/-- Both states carried by the two propagation-batch outcomes. -/
def PropRes.state : PropRes → SatSolver
  | .clean s _ => s
  | .again s => s
  | .unsatR s => s

/-- The state carried by a clause-visit outcome. -/
def VisitRes.state : VisitRes → SatSolver
  | .proceed s _ => s
  | .again s => s
  | .unsatR s => s

/-- Invariants of a solver state preserved by every operation of `solve`:
the problem reference and the number of variables. -/
def Pres (s s' : SatSolver) : Prop :=
  s'.problem = s.problem ∧ s'.vars.length = s.vars.length

/-- The new trail extends the old one and every new entry is `propagated`. -/
def stackExtends (old new : List (Nat × AssignmentState)) : Prop :=
  ∃ pref, new = pref ++ old ∧ ∀ e ∈ pref, ∃ c, e.2 = AssignmentState.propagated c

/-- Claim C3 as stated: whenever `Clause::resolution` succeeds, its result is
entailed by the conjunction of the two premises and contains no occurrence of
any pivot variable (a variable occurring with opposite signs in the two
premises). -/
def ClaimC3 : Prop :=
  ∀ left right c, resolution left right = some c →
    (∀ σ : Nat → Bool, clauseSat σ left = true → clauseSat σ right = true →
      clauseSat σ c = true) ∧
    (∀ v, isPivot v left right → ∀ l ∈ c, l.id ≠ v)

/-! ## Theorems -/

/-! ### Computation rules of the `Run` monad -/

@[simp] theorem Run.bind_ok {α β : Type} (a : α) (f : α → Run β) :
    Run.bind (.ok a) f = f a := rfl

@[simp] theorem Run.bind_outOfFuel {α β : Type} (f : α → Run β) :
    Run.bind .outOfFuel f = .outOfFuel := rfl

@[simp] theorem Run.bind_crash {α β : Type} (f : α → Run β) :
    Run.bind .crash f = .crash := rfl

@[simp] theorem Run.bind_eq {α β : Type} (x : Run α) (f : α → Run β) :
    x >>= f = Run.bind x f := rfl

@[simp] theorem Run.pure_eq {α : Type} (a : α) : (pure a : Run α) = .ok a := rfl

@[simp] theorem Run.ofOption_some {α : Type} (a : α) :
    Run.ofOption (some a) = .ok a := rfl

@[simp] theorem Run.ofOption_none {α : Type} :
    (Run.ofOption none : Run α) = .crash := rfl

/-! ### Generic list helpers -/

theorem beqNatComm (a b : Nat) : (a == b) = (b == a) := by
  rw [Bool.eq_iff_iff, beq_iff_eq, beq_iff_eq]; exact eq_comm

theorem getElemSetSelfMap {α : Type} (l : List α) (n : Nat) (a : α) :
    (l.set n a)[n]? = l[n]?.map (fun _ => a) := by
  rw [List.getElem?_set_self']; rfl

theorem anyCongr {α : Type} {l : List α} {p q : α → Bool}
    (h : ∀ x ∈ l, p x = q x) : l.any p = l.any q := by
  induction l with
  | nil => rfl
  | cons a r ih =>
    simp only [List.any_cons, h a (by simp), ih (fun x hx => h x (by simp [hx]))]

theorem enumFromAnySnd {α : Type} (p : α → Bool) (l : List α) :
    ∀ n : Nat, (l.enumFrom n).any (fun x => p x.2) = l.any p := by
  induction l with
  | nil => intro n; rfl
  | cons a r ih => intro n; simp only [List.enumFrom_cons, List.any_cons, ih]

theorem enumAnySnd {α : Type} (p : α → Bool) (l : List α) :
    l.enum.any (fun x => p x.2) = l.any p :=
  enumFromAnySnd p l 0

theorem enumAnyAt {α : Type} (l : List α) (i : Nat) (a : α) (h : l[i]? = some a)
    (p : α → Bool) : l.enum.any (fun x => x.1 == i && p x.2) = p a := by
  cases hp : p a with
  | true =>
    rw [List.any_eq_true]
    exact ⟨(i, a), List.mk_mem_enum_iff_getElem?.mpr h, by simp [hp]⟩
  | false =>
    rw [List.any_eq_false]
    intro x hx
    have hget := List.mk_mem_enum_iff_getElem?.mp (by exact hx)
    simp only [Bool.and_eq_true, beq_iff_eq, not_and]
    intro h1
    subst h1
    rw [h] at hget
    cases hget
    simp [hp]

theorem enumFromFilterMap {α : Type} (f : Nat × α → Bool) (g : α → Bool)
    (l : List α) : ∀ n : Nat, (∀ i a, l[i]? = some a → f (n + i, a) = g a) →
    ((l.enumFrom n).filter f).map (·.2) = l.filter g := by
  induction l with
  | nil => intro n _; rfl
  | cons a r ih =>
    intro n h
    have h0 : f (n, a) = g a := by
      have := h 0 a (by simp)
      simpa using this
    have hrec := ih (n + 1) (fun i b hb => by
      have := h (i + 1) b (by simpa using hb)
      have harith : n + (i + 1) = n + 1 + i := by omega
      rwa [harith] at this)
    simp only [List.enumFrom_cons, List.filter_cons, h0]
    cases hg : g a with
    | true => simp [hrec]
    | false => simp [hrec]

theorem enumFilterMap {α : Type} (f : Nat × α → Bool) (g : α → Bool)
    (l : List α) (h : ∀ i a, l[i]? = some a → f (i, a) = g a) :
    (l.enum.filter f).map (·.2) = l.filter g :=
  enumFromFilterMap f g l 0 (fun i a ha => by simpa using h i a ha)

/-! ### Characterization of `Clause::resolution` -/

theorem resInnerFst (il : Nat × Literal) (cols : List (Nat × Literal)) :
    ∀ acc : List Bool × List Bool × Bool,
    (cols.foldl (resInnerStep il) acc).1 =
      if cols.any (fun kr => il.2.id == kr.2.id && il.2.sign != kr.2.sign)
      then acc.1.set il.1 false else acc.1 := by
  induction cols with
  | nil => intro acc; simp
  | cons kr rest ih =>
    intro acc
    simp only [List.foldl_cons, List.any_cons]
    by_cases hid : (il.2.id == kr.2.id) = true
    · by_cases hs : (il.2.sign != kr.2.sign) = true
      · simp only [resInnerStep, hid, hs, Bool.true_and, Bool.true_or, if_true,
          ih, List.set_set]
        simp
      · rw [Bool.not_eq_true] at hs
        simp only [resInnerStep, hid, hs, Bool.and_false, Bool.false_or, ih]
        simp
    · rw [Bool.not_eq_true] at hid
      simp only [resInnerStep, hid, Bool.false_and, Bool.false_or, ih]
      simp

theorem resInnerTrd (il : Nat × Literal) (cols : List (Nat × Literal)) :
    ∀ acc : List Bool × List Bool × Bool,
    (cols.foldl (resInnerStep il) acc).2.2 =
      (acc.2.2 || cols.any (fun kr => il.2.id == kr.2.id && il.2.sign != kr.2.sign)) := by
  induction cols with
  | nil => intro acc; simp
  | cons kr rest ih =>
    intro acc
    simp only [List.foldl_cons, List.any_cons]
    by_cases hid : (il.2.id == kr.2.id) = true
    · by_cases hs : (il.2.sign != kr.2.sign) = true
      · simp only [resInnerStep, hid, hs, Bool.true_and, Bool.true_or, if_true, ih]
        simp
      · rw [Bool.not_eq_true] at hs
        simp only [resInnerStep, hid, hs, Bool.and_false, Bool.false_or, ih]
        simp
    · rw [Bool.not_eq_true] at hid
      simp only [resInnerStep, hid, Bool.false_and, Bool.false_or, ih]
      simp

theorem resInnerSnd (il : Nat × Literal) (cols : List (Nat × Literal)) (k : Nat) :
    ∀ acc : List Bool × List Bool × Bool,
    ((cols.foldl (resInnerStep il) acc).2.1)[k]? =
      if cols.any (fun kr => kr.1 == k && il.2.id == kr.2.id)
      then acc.2.1[k]?.map (fun _ => false) else acc.2.1[k]? := by
  induction cols with
  | nil => intro acc; simp
  | cons kr rest ih =>
    intro acc
    have hmm : ∀ o : Option Bool,
        (o.map (fun _ => false)).map (fun _ => false) = o.map (fun _ => false) := by
      intro o; cases o <;> rfl
    simp only [List.foldl_cons, List.any_cons]
    by_cases hk : (kr.1 == k) = true
    · have hk' : kr.1 = k := by simpa using hk
      subst hk'
      by_cases hid : (il.2.id == kr.2.id) = true
      · by_cases hs : (il.2.sign != kr.2.sign) = true
        · simp only [resInnerStep, hid, hs, Bool.true_and, Bool.and_true,
            Bool.true_or, if_true, ih, getElemSetSelfMap]
          by_cases hq : (rest.any fun kr_1 => kr.1 == kr.1 && il.2.id == kr_1.2.id) = true
          · simp [hq, hmm]
          · simp [hq]
        · rw [Bool.not_eq_true] at hs
          simp only [resInnerStep, hid, hs, Bool.and_false, Bool.false_eq_true,
            if_false, Bool.and_true, if_true, Bool.true_or, ih, getElemSetSelfMap]
          by_cases hq : (rest.any fun kr_1 => kr.1 == kr.1 && il.2.id == kr_1.2.id) = true
          · simp [hq, hmm]
          · simp [hq]
      · rw [Bool.not_eq_true] at hid
        simp only [resInnerStep, hid, Bool.false_and, Bool.false_eq_true, if_false,
          Bool.and_false, Bool.false_or, ih]
    · rw [Bool.not_eq_true] at hk
      have hk' : kr.1 ≠ k := by simpa using hk
      by_cases hid : (il.2.id == kr.2.id) = true
      · by_cases hs : (il.2.sign != kr.2.sign) = true
        · simp only [resInnerStep, hid, hs, Bool.true_and, Bool.and_true, if_true,
            ih, List.getElem?_set_ne hk', hk, Bool.false_and, Bool.false_or]
        · rw [Bool.not_eq_true] at hs
          simp only [resInnerStep, hid, hs, Bool.and_false, Bool.false_eq_true,
            if_false, Bool.and_true, if_true, ih, List.getElem?_set_ne hk', hk,
            Bool.false_and, Bool.false_or]
      · rw [Bool.not_eq_true] at hid
        simp only [resInnerStep, hid, Bool.false_and, Bool.false_eq_true, if_false,
          Bool.and_false, Bool.false_or, ih, hk, Bool.false_and]

theorem optionMapFalse (o : Option Bool) :
    (o.map (fun _ => false)).map (fun _ => false) = o.map (fun _ => false) := by
  cases o <;> rfl

theorem resOuterTrd (right : Clause) (rows : List (Nat × Literal)) :
    ∀ acc : List Bool × List Bool × Bool,
    (rows.foldl (resOuterStep right) acc).2.2 =
      (acc.2.2 || rows.any (fun il =>
        right.enum.any (fun kr => il.2.id == kr.2.id && il.2.sign != kr.2.sign))) := by
  induction rows with
  | nil => intro acc; simp
  | cons il rest ih =>
    intro acc
    simp only [List.foldl_cons, List.any_cons, ih]
    have hstep : (resOuterStep right acc il).2.2 =
        (acc.2.2 || right.enum.any (fun kr => il.2.id == kr.2.id && il.2.sign != kr.2.sign)) := by
      simp only [resOuterStep]
      exact resInnerTrd il right.enum acc
    rw [hstep, Bool.or_assoc]

theorem resOuterFst (right : Clause) (rows : List (Nat × Literal)) (i : Nat) :
    ∀ acc : List Bool × List Bool × Bool,
    ((rows.foldl (resOuterStep right) acc).1)[i]? =
      if rows.any (fun il => il.1 == i &&
          right.enum.any (fun kr => il.2.id == kr.2.id && il.2.sign != kr.2.sign))
      then acc.1[i]?.map (fun _ => false) else acc.1[i]? := by
  induction rows with
  | nil => intro acc; simp
  | cons il rest ih =>
    intro acc
    simp only [List.foldl_cons, List.any_cons, ih]
    have hfst : (resOuterStep right acc il).1 =
        if right.enum.any (fun kr => il.2.id == kr.2.id && il.2.sign != kr.2.sign)
        then acc.1.set il.1 false else acc.1 := by
      simp only [resOuterStep]
      exact resInnerFst il right.enum acc
    by_cases hclash :
        (right.enum.any (fun kr => il.2.id == kr.2.id && il.2.sign != kr.2.sign)) = true
    · by_cases hidx : (il.1 == i) = true
      · have hii : il.1 = i := by simpa using hidx
        subst hii
        simp only [hfst, hclash, if_true, hidx, Bool.true_and, Bool.true_or,
          getElemSetSelfMap]
        by_cases hq : (rest.any (fun il => il.1 == il.1 && right.enum.any
            (fun kr => il.2.id == kr.2.id && il.2.sign != kr.2.sign))) = true
        · simp [optionMapFalse]
        · simp [optionMapFalse]
      · rw [Bool.not_eq_true] at hidx
        have hne : il.1 ≠ i := by simpa using hidx
        simp only [hfst, hclash, if_true, List.getElem?_set_ne hne, hidx,
          Bool.false_and, Bool.false_or, Bool.and_true]
    · rw [Bool.not_eq_true] at hclash
      simp only [hfst, hclash, Bool.false_eq_true, if_false, Bool.and_false,
        Bool.false_or]

theorem resOuterSnd (right : Clause) (rows : List (Nat × Literal)) (k : Nat) :
    ∀ acc : List Bool × List Bool × Bool,
    ((rows.foldl (resOuterStep right) acc).2.1)[k]? =
      if rows.any (fun il =>
          right.enum.any (fun kr => kr.1 == k && il.2.id == kr.2.id))
      then acc.2.1[k]?.map (fun _ => false) else acc.2.1[k]? := by
  induction rows with
  | nil => intro acc; simp
  | cons il rest ih =>
    intro acc
    simp only [List.foldl_cons, List.any_cons, ih]
    have hsnd : ((resOuterStep right acc il).2.1)[k]? =
        if right.enum.any (fun kr => kr.1 == k && il.2.id == kr.2.id)
        then acc.2.1[k]?.map (fun _ => false) else acc.2.1[k]? := by
      simp only [resOuterStep]
      exact resInnerSnd il right.enum k acc
    by_cases hhit : (right.enum.any (fun kr => kr.1 == k && il.2.id == kr.2.id)) = true
    · simp only [hsnd, hhit, if_true, Bool.true_or]
      by_cases hq : (rest.any (fun il => right.enum.any
          (fun kr => kr.1 == k && il.2.id == kr.2.id))) = true
      · simp [hq, optionMapFalse]
      · simp [hq]
    · rw [Bool.not_eq_true] at hhit
      simp only [hsnd, hhit, Bool.false_eq_true, if_false, Bool.false_or]

/-- Shared helper: `Clause::resolution` equals its declarative description
`resolutionSpec` on all inputs. -/
theorem resolution_eq_spec (left right : Clause) :
    resolution left right = resolutionSpec left right := by
  have hcond : (left.enum.foldl (resOuterStep right)
      (List.replicate left.length true, List.replicate right.length true, false)).2.2
      = left.any (fun l => complementIn l right) := by
    rw [resOuterTrd]
    simp only [Bool.false_or]
    have : ∀ il : Nat × Literal,
        right.enum.any (fun kr => il.2.id == kr.2.id && il.2.sign != kr.2.sign)
        = complementIn il.2 right := by
      intro il
      exact enumAnySnd (fun r => il.2.id == r.id && il.2.sign != r.sign) right
    calc left.enum.any (fun il =>
          right.enum.any (fun kr => il.2.id == kr.2.id && il.2.sign != kr.2.sign))
        = left.enum.any (fun il => complementIn il.2 right) :=
          anyCongr (fun il _ => this il)
      _ = left.any (fun l => complementIn l right) :=
          enumAnySnd (fun l => complementIn l right) left
  have hleft : ((left.enum.filter (fun il =>
      (left.enum.foldl (resOuterStep right)
        (List.replicate left.length true, List.replicate right.length true,
          false)).1.getD il.1 true)).map (·.2))
      = left.filter (fun l => !complementIn l right) := by
    apply enumFilterMap
    intro i a ha
    have hi : i < left.length := (List.getElem?_eq_some.mp ha).1
    have harr : ((left.enum.foldl (resOuterStep right)
        (List.replicate left.length true, List.replicate right.length true,
          false)).1)[i]? = some (!complementIn a right) := by
      rw [resOuterFst]
      have hany : left.enum.any (fun il => il.1 == i &&
          right.enum.any (fun kr => il.2.id == kr.2.id && il.2.sign != kr.2.sign))
          = complementIn a right := by
        have := enumAnyAt left i a ha (fun y =>
          right.enum.any (fun kr => y.id == kr.2.id && y.sign != kr.2.sign))
        rw [this]
        exact enumAnySnd (fun r => a.id == r.id && a.sign != r.sign) right
      rw [hany]
      have hrep : (List.replicate left.length true)[i]? = some true := by
        simp [List.getElem?_replicate, hi]
      cases hc : complementIn a right with
      | true => simp [hrep]
      | false => simp [hrep]
    simp [List.getD_eq_getElem?_getD, harr]
  have hright : ((right.enum.filter (fun kr =>
      (left.enum.foldl (resOuterStep right)
        (List.replicate left.length true, List.replicate right.length true,
          false)).2.1.getD kr.1 true)).map (·.2))
      = right.filter (fun r => !varIn r left) := by
    apply enumFilterMap
    intro k a ha
    have hk : k < right.length := (List.getElem?_eq_some.mp ha).1
    have harr : ((left.enum.foldl (resOuterStep right)
        (List.replicate left.length true, List.replicate right.length true,
          false)).2.1)[k]? = some (!varIn a left) := by
      rw [resOuterSnd]
      have hany : left.enum.any (fun il =>
          right.enum.any (fun kr => kr.1 == k && il.2.id == kr.2.id))
          = varIn a left := by
        have hin : ∀ il : Nat × Literal,
            right.enum.any (fun kr => kr.1 == k && il.2.id == kr.2.id)
            = (il.2.id == a.id) := by
          intro il
          exact enumAnyAt right k a ha (fun y => il.2.id == y.id)
        calc left.enum.any (fun il =>
              right.enum.any (fun kr => kr.1 == k && il.2.id == kr.2.id))
            = left.enum.any (fun il => il.2.id == a.id) :=
              anyCongr (fun il _ => hin il)
          _ = left.any (fun l => l.id == a.id) :=
              enumAnySnd (fun l => l.id == a.id) left
          _ = varIn a left := rfl
      rw [hany]
      have hrep : (List.replicate right.length true)[k]? = some true := by
        simp [List.getElem?_replicate, hk]
      cases hc : varIn a left with
      | true => simp [hrep]
      | false => simp [hrep]
    simp [List.getD_eq_getElem?_getD, harr]
  simp only [resolution, resolutionSpec, hcond, hleft, hright]

theorem complementIn_iff (l : Literal) (c : Clause) :
    complementIn l c = true ↔ ∃ r ∈ c, l.id = r.id ∧ l.sign ≠ r.sign := by
  simp [complementIn, List.any_eq_true]

theorem varIn_iff (l : Literal) (c : Clause) :
    varIn l c = true ↔ ∃ r ∈ c, r.id = l.id := by
  simp [varIn, List.any_eq_true]

theorem clauseSat_iff (σ : Nat → Bool) (c : Clause) :
    clauseSat σ c = true ↔ ∃ l ∈ c, σ l.id = l.sign := by
  simp [clauseSat, List.any_eq_true]

/-- Members of a clause with no repeated variable are determined by their
variable. -/
theorem nodupIds_inj {c : Clause} (h : nodupIds c) {l1 l2 : Literal}
    (h1 : l1 ∈ c) (h2 : l2 ∈ c) (hid : l1.id = l2.id) : l1 = l2 :=
  List.inj_on_of_nodup_map h h1 h2 hid

/-- Claim C4 is FALSE: on `left = [x0, ¬x0]` and `right = [x0]`, the variable
`x0` has an opposite-sign clash (`¬x0` against `x0`), so the claim's
description removes every occurrence of `x0` and predicts `Some []`, but
`Clause::resolution` keeps the left literal `x0` (its complement `¬x0` does
not occur in the right clause) and returns `Some [x0]`. -/
theorem c4_counterexample :
    resolution [⟨0, true⟩, ⟨0, false⟩] [⟨0, true⟩] = some [⟨0, true⟩] ∧
    resolutionClaimC4 [⟨0, true⟩, ⟨0, false⟩] [⟨0, true⟩] = some [] ∧
    resolution [⟨0, true⟩, ⟨0, false⟩] [⟨0, true⟩] ≠
      resolutionClaimC4 [⟨0, true⟩, ⟨0, false⟩] [⟨0, true⟩] := by
  refine ⟨by decide, by decide, by decide⟩

/-- Amended claim C4: `Clause::resolution(L, R)` returns `Some` exactly when
some literal of `L` clashes (same variable, opposite sign) with some literal
of `R`; the result keeps, in order, the `L` literals whose complement does not
occur in `R`, followed by the `R` literals whose variable does not occur in
`L` at all (so an `R` occurrence is dropped both on an opposite-sign clash and
on a same-sign duplicate, while an `L` occurrence is dropped only when its own
complement occurs in `R`). -/
theorem c4_amended (left right : Clause) :
    resolution left right = resolutionSpec left right :=
  resolution_eq_spec left right

/-- Claim C3 is FALSE: resolution on `left = [x0, x1]`, `right = [¬x0, ¬x1]`
removes both pivot pairs at once and returns the empty clause, but the
assignment `x0 := true, x1 := false` satisfies both premises and falsifies the
empty clause, so `left ∧ right` does not entail the resolvent. -/
theorem c3_counterexample : ¬ ClaimC3 := by
  intro h
  have h2 := h [⟨0, true⟩, ⟨1, true⟩] [⟨0, false⟩, ⟨1, false⟩] [] (by decide)
  have h3 := h2.1 (fun n => n == 0) (by decide) (by decide)
  simp [clauseSat] at h3

/-- Amended claim C3: when each premise has no repeated variable and exactly
one variable `v` occurs with opposite signs across the premises, a successful
`Clause::resolution` is entailed by the conjunction of the premises and the
pivot `v` does not occur in the resolvent. -/
theorem c3_amended (left right c : Clause) (v : Nat)
    (hLnodup : nodupIds left) (hRnodup : nodupIds right)
    (hpivot : isPivot v left right)
    (huniq : ∀ l ∈ left, ∀ r ∈ right, l.id = r.id → l.sign ≠ r.sign → l.id = v)
    (hres : resolution left right = some c) :
    (∀ σ : Nat → Bool, clauseSat σ left = true → clauseSat σ right = true →
      clauseSat σ c = true) ∧ (∀ l ∈ c, l.id ≠ v) := by
  rw [resolution_eq_spec] at hres
  simp only [resolutionSpec] at hres
  by_cases hcl : left.any (fun l => complementIn l right) = true
  case neg =>
    rw [Bool.not_eq_true] at hcl
    rw [hcl] at hres
    simp at hres
  case pos =>
  rw [hcl] at hres
  simp only [if_true] at hres
  have hc : c = left.filter (fun l => !complementIn l right)
      ++ right.filter (fun r => !varIn r left) := by
    cases hres
    rfl
  subst hc
  obtain ⟨lp, hlp, rp, hrp, hlpv, hrpv, hlrsign⟩ := hpivot
  constructor
  · -- entailment
    intro σ hL hR
    by_contra hC
    rw [Bool.not_eq_true] at hC
    have hCfalse : ∀ x ∈ left.filter (fun l => !complementIn l right)
        ++ right.filter (fun r => !varIn r left), ¬ (σ x.id = x.sign) := by
      intro x hx hsat
      have htrue : clauseSat σ (left.filter (fun l => !complementIn l right)
          ++ right.filter (fun r => !varIn r left)) = true :=
        (clauseSat_iff σ _).mpr ⟨x, hx, hsat⟩
      rw [hC] at htrue
      exact Bool.false_ne_true htrue
    obtain ⟨l, hlmem, hlsat⟩ := (clauseSat_iff σ left).mp hL
    obtain ⟨r, hrmem, hrsat⟩ := (clauseSat_iff σ right).mp hR
    -- the satisfied left literal must be a pivot occurrence
    have hlcomp : complementIn l right = true := by
      by_contra hcomp
      rw [Bool.not_eq_true] at hcomp
      have hmem : l ∈ left.filter (fun x => !complementIn x right)
          ++ right.filter (fun x => !varIn x left) :=
        List.mem_append.mpr (Or.inl (List.mem_filter.mpr ⟨hlmem, by simp [hcomp]⟩))
      exact hCfalse l hmem hlsat
    have hlv : l.id = v := by
      obtain ⟨r', hr', hid', hsign'⟩ := (complementIn_iff l right).mp hlcomp
      exact huniq l hlmem r' hr' hid' hsign'
    -- the satisfied right literal must have its variable in the left clause
    have hrvar : varIn r left = true := by
      by_contra hvar
      rw [Bool.not_eq_true] at hvar
      have hmem : r ∈ left.filter (fun x => !complementIn x right)
          ++ right.filter (fun x => !varIn x left) :=
        List.mem_append.mpr (Or.inr (List.mem_filter.mpr ⟨hrmem, by simp [hvar]⟩))
      exact hCfalse r hmem hrsat
    obtain ⟨l', hl'mem, hl'id⟩ := (varIn_iff r left).mp hrvar
    by_cases hsgn : l'.sign = r.sign
    · -- the left twin of r is satisfied and survives
      have hl'sat : σ l'.id = l'.sign := by
        rw [hl'id, hsgn]
        exact hrsat
      have hl'comp : complementIn l' right = false := by
        by_contra hcomp'
        rw [Bool.not_eq_false] at hcomp'
        obtain ⟨r'', hr''mem, hr''id, hr''sign⟩ := (complementIn_iff l' right).mp hcomp'
        have : r'' = r := nodupIds_inj hRnodup hr''mem hrmem (by rw [← hr''id, hl'id])
        subst this
        exact hr''sign hsgn
      have hmem : l' ∈ left.filter (fun x => !complementIn x right)
          ++ right.filter (fun x => !varIn x left) :=
        List.mem_append.mpr (Or.inl (List.mem_filter.mpr ⟨hl'mem, by simp [hl'comp]⟩))
      exact hCfalse l' hmem hl'sat
    · -- l and l' are both the unique pivot literal of the left clause
      have hl'v : l'.id = v := huniq l' hl'mem r hrmem hl'id hsgn
      have hll' : l = l' := nodupIds_inj hLnodup hlmem hl'mem (by rw [hlv, hl'v])
      have hrv : r.id = v := by rw [← hl'id, hl'v]
      have : l.sign = r.sign := by
        have h1 : σ v = l.sign := by rw [← hlv]; exact hlsat
        have h2 : σ v = r.sign := by rw [← hrv]; exact hrsat
        rw [← h1, h2]
      rw [hll'] at this
      exact hsgn this
  · -- the pivot variable does not occur in the resolvent
    intro x hx hxv
    rcases List.mem_append.mp hx with hxl | hxr
    · obtain ⟨hxmem, hxkeep⟩ := List.mem_filter.mp hxl
      have hxlp : x = lp := nodupIds_inj hLnodup hxmem hlp (by rw [hxv, hlpv])
      have : complementIn x right = true := by
        rw [complementIn_iff]
        refine ⟨rp, hrp, by rw [hxv, hrpv], ?_⟩
        rw [hxlp]
        exact hlrsign
      simp [this] at hxkeep
    · obtain ⟨hxmem, hxkeep⟩ := List.mem_filter.mp hxr
      have : varIn x left = true := by
        rw [varIn_iff]
        exact ⟨lp, hlp, by rw [hlpv, hxv]⟩
      simp [this] at hxkeep

/-- Witness for the amended claim C3 at `left = [x0, x1]`,
`right = [¬x0, x1]` with pivot `x0`: the resolvent is `[x1]`, it is satisfied
by the assignment making exactly `x1` true (which satisfies both premises),
and its single literal is not the pivot. -/
theorem c3_witness :
    clauseSat (fun n => n == 1) [⟨1, true⟩] = true ∧
    (Literal.mk 1 true).id ≠ 0 := by
  constructor
  · exact (c3_amended [⟨0, true⟩, ⟨1, true⟩] [⟨0, false⟩, ⟨1, true⟩] [⟨1, true⟩] 0
      (by decide) (by decide) (by decide) (by decide) (by decide)).1
      (fun n => n == 1) (by decide) (by decide)
  · exact (c3_amended [⟨0, true⟩, ⟨1, true⟩] [⟨0, false⟩, ⟨1, true⟩] [⟨1, true⟩] 0
      (by decide) (by decide) (by decide) (by decide) (by decide)).2
      ⟨1, true⟩ (by decide)

/-! ### Claim C7: propagation queue discipline -/

/-- Claim C7 is FALSE: in the reachable state `s7state` (solving `P7` right
after the decision `x0 := true`), the batch processes the pending ids in the
order `[0, 2, 1]` — the id enqueued LAST (`x2`) is processed before the id
enqueued first (`x1`) — while a first-in-first-out queue would process
`[0, 1, 2]`. The `VecDeque` is used with `push_back`/`pop_back`, i.e. as a
LIFO stack. -/
theorem c7_counterexample :
    batchLog (propagateBatch 50 s7state 0) = some [0, 2, 1] ∧
    batchLog (propagateBatchFIFO 50 s7state 0) = some [0, 1, 2] :=
  ⟨by decide, by decide⟩

/-- Amended claim C7: the pending ids are held in a `VecDeque` used with
`push_back`/`pop_back`, i.e. as a last-in-first-out stack (with per-batch
deduplication via the visited set): the id the propagation loop dequeues next
is always the most recently enqueued one. -/
theorem c7_amended (fuel : Nat) (s : SatSolver) (q visited log : List Nat) (i : Nat) :
    propLoop (fuel + 1) s (dequePushBack q i) visited log =
      if visited.contains i then propLoop fuel s q visited log
      else Run.bind (propVisit fuel s i q) (fun r =>
        match r with
        | .proceed s' q' => propLoop fuel s' q' (i :: visited) (log ++ [i])
        | .again s' => .ok (.again s')
        | .unsatR s' => .ok (.unsatR s')) := by
  have hpop : dequePopBack (dequePushBack q i) = some (i, q) := by
    simp [dequePushBack, dequePopBack, List.getLast?_concat, List.dropLast_concat]
  simp only [propLoop, hpop]
  rfl

/-! ### Claim C6: the level used by the 1-UIP test -/

/-- Claim C6 is FALSE: `s6state` is a reachable conflict state (with conflict
clause 5) whose trail holds a `second` entry between the conflict and the
remaining `propagated` entries. The code's conflict analysis, whose 1-UIP
count uses the CURRENT `decision_level` (already decremented by the `second`
pop), resumes at decision level 2; the claim's variant, counting against the
level fixed at entry, resumes at decision level 1. -/
theorem c6_counterexample :
    btLevel (try_backtrack 100 s6state 5) = some 2 ∧
    btLevel (try_backtrackEntry 100 s6state 5) = some 1 :=
  ⟨by decide, by decide⟩

theorem setVar_ok_decisionLevel {s s' : SatSolver} {i : Nat} {v : VariableState}
    (h : setVar s i v = .ok s') : s'.decisionLevel = s.decisionLevel := by
  simp only [setVar] at h
  split at h
  · cases h; rfl
  · cases h

theorem decLevel_ok {s s' : SatSolver} (h : decLevel s = .ok s') :
    s'.decisionLevel = s.decisionLevel - 1 := by
  simp only [decLevel] at h
  split at h
  · cases h
  · cases h; rfl

/-- Amended claim C6: the 1-UIP count performed after each successful
resolution compares decision levels against the CURRENT value of
`decision_level` at the moment of the check — the level at entry of conflict
analysis minus the number of `second` entries popped so far (`first` pops
return immediately and `propagated` pops leave the level unchanged); this is
what `btLoopCur`, written from that description with an explicit decremented
level parameter, computes, and it agrees with the code on every state. -/
theorem c6_amended (fuel : Nat) (s : SatSolver) (clause : Clause) :
    btLoopCur s.decisionLevel fuel s clause = btLoop fuel s clause := by
  induction fuel generalizing s clause with
  | zero => rfl
  | succ fuel ih =>
    simp only [btLoopCur, btLoop]
    cases hst : s.dpllStack with
    | nil => rfl
    | cons top rest =>
      obtain ⟨k, st⟩ := top
      cases st with
      | first => rfl
      | second =>
        simp only [Run.bind_eq]
        cases hsv : setVar { s with dpllStack := rest } k .notAssigned with
        | ok s1 =>
          simp only [Run.bind_ok]
          cases hdl : decLevel s1 with
          | ok s2 =>
            simp only [Run.bind_ok]
            have h1 : s1.decisionLevel = s.decisionLevel := by
              have := setVar_ok_decisionLevel hsv
              exact this
            have h2 : s2.decisionLevel = s.decisionLevel - 1 := by
              rw [decLevel_ok hdl, h1]
            rw [← h2, ih]
          | outOfFuel => rfl
          | crash => rfl
        | outOfFuel => rfl
        | crash => rfl
      | propagated cid =>
        simp only [Run.bind_eq]
        cases hsv : setVar { s with dpllStack := rest } k .notAssigned with
        | ok s1 =>
          simp only [Run.bind_ok]
          cases hgt : getTagged s1 cid with
          | ok tc =>
            simp only [Run.bind_ok]
            have h1 : s1.decisionLevel = s.decisionLevel := by
              have := setVar_ok_decisionLevel hsv
              exact this
            rw [← h1]
            cases hres : resolution clause tc.clause with
            | none => exact ih s1 clause
            | some newClause =>
              dsimp only []
              cases hcnt : countAtLevel s1 s1.decisionLevel newClause with
              | ok n =>
                simp only [Run.bind_eq, Run.bind_ok]
                by_cases hn : (n == 1) = true
                · simp only [hn, if_true]
                · rw [Bool.not_eq_true] at hn
                  simp only [hn, Bool.false_eq_true, if_false]
                  exact ih s1 newClause
              | outOfFuel => simp only [Run.bind_eq, Run.bind_outOfFuel]
              | crash => simp only [Run.bind_eq, Run.bind_crash]
          | outOfFuel => rfl
          | crash => rfl
        | outOfFuel => rfl
        | crash => rfl

/-! ### Claim C8: `learn_clause` on a fully assigned clause -/

/-- Claim C8 is FALSE: `s8state` has both variables assigned; calling
`learn_clause` on the length-2 clause `x0 ∨ x1` (all of whose literals are
assigned) does not install the clause and return normally — it hits the
`panic!()` branch. -/
theorem c8_counterexample :
    learn_clause s8state [⟨0, true⟩, ⟨1, true⟩] = .crash := by decide

/-- If every literal of the clause is assigned, the classification loop of
`learn_clause` returns an empty unassigned list. -/
theorem classifyLits_all_assigned (s : SatSolver) (c : Clause)
    (h : ∀ l ∈ c, ∃ b lvl, s.vars.get? l.id = some (.assigned b lvl)) :
    ∃ a, classifyLits s c = .ok (a, []) := by
  induction c with
  | nil => exact ⟨[], rfl⟩
  | cons l rest ih =>
    obtain ⟨b, lvl, hb⟩ := h l (by simp)
    obtain ⟨a, ha⟩ := ih (fun x hx => h x (by simp [hx]))
    refine ⟨(l, lvl) :: a, ?_⟩
    simp only [classifyLits, Run.bind_eq, getVar, hb, Run.ofOption_some,
      Run.bind_ok, ha]

/-- Amended claim C8: when `learn_clause` is invoked on a clause of length ≥ 2
none of whose literals is unassigned, it PANICS (the `panic!()` arm of the
watched-literal selection) instead of installing the clause. -/
theorem c8_amended (s : SatSolver) (c : Clause) (_hlen : 2 ≤ c.length)
    (h : ∀ l ∈ c, ∃ b lvl, s.vars.get? l.id = some (.assigned b lvl)) :
    learn_clause s c = .crash := by
  obtain ⟨a, ha⟩ := classifyLits_all_assigned s c h
  simp [learn_clause, ha]

/-- Witness for the amended claim C8 at the concrete state `s8state` and the
clause `x0 ∨ x1`. -/
theorem c8_witness : learn_clause s8state [⟨0, true⟩, ⟨1, true⟩] = .crash :=
  c8_amended s8state [⟨0, true⟩, ⟨1, true⟩] (by decide)
    (by
      intro l hl
      rcases List.mem_cons.mp hl with h1 | h1
      · exact ⟨true, 1, by rw [h1]; decide⟩
      · rcases List.mem_cons.mp h1 with h2 | h2
        · exact ⟨true, 1, by rw [h2]; decide⟩
        · cases h2)

/-! ### Claim C10: `assign_unit_clause` only writes unassigned variables -/

/-- Every literal collected as unknown by the clause scan is unassigned. -/
theorem aucScan_unknowns (s : SatSolver) (c : Clause) (us : List Literal)
    (h : aucScan s c = .ok (.unknowns us)) :
    ∀ l ∈ us, s.vars.get? l.id = some .notAssigned := by
  induction c generalizing us with
  | nil =>
    simp only [aucScan] at h
    cases h
    intro l hl
    cases hl
  | cons x rest ih =>
    simp only [aucScan, Run.bind_eq, getVar] at h
    cases hx : s.vars.get? x.id with
    | none => rw [hx] at h; cases h
    | some v =>
      rw [hx] at h
      simp only [Run.ofOption_some, Run.bind_ok] at h
      cases v with
      | assigned sg lvl =>
        simp only [VariableState.signQ] at h
        by_cases hs : (sg == x.sign) = true
        · rw [if_pos hs] at h
          cases h
        · rw [if_neg hs] at h
          exact ih us h
      | notAssigned =>
        simp only [VariableState.signQ] at h
        cases hrec : aucScan s rest with
        | ok r =>
          rw [hrec] at h
          cases r with
          | satisfied => simp at h
          | unknowns us' =>
            simp only [Run.bind_ok] at h
            cases h
            intro l hl
            rcases List.mem_cons.mp hl with h1 | h1
            · rw [h1]; exact hx
            · exact ih us' hrec l h1
        | outOfFuel => rw [hrec] at h; cases h
        | crash => rw [hrec] at h; cases h

/-- One pass of `assign_unit_clause` never modifies an assigned variable. -/
theorem aucPass_frame (tcs : List TaggedClause) :
    ∀ (s : SatSolver) (updated : Bool) (r : AucPassRes),
    aucPass s updated tcs = .ok r →
    ∀ i sg lvl, s.vars.get? i = some (.assigned sg lvl) →
    r.state.vars.get? i = some (.assigned sg lvl) := by
  induction tcs with
  | nil =>
    intro s updated r h i sg lvl hv
    simp only [aucPass] at h
    cases h
    exact hv
  | cons tc rest ih =>
    intro s updated r h i sg lvl hv
    simp only [aucPass, Run.bind_eq] at h
    cases hscan : aucScan s tc.clause with
    | ok sr =>
      rw [hscan] at h
      simp only [Run.bind_ok] at h
      cases sr with
      | satisfied => exact ih s updated r h i sg lvl hv
      | unknowns us =>
        dsimp only [] at h
        by_cases he : us.isEmpty = true
        · rw [if_pos he] at h
          cases h
          exact hv
        · rw [if_neg he] at h
          by_cases h1 : (us.length == 1) = true
          · rw [if_pos h1] at h
            cases hus : us with
            | nil => rw [hus] at he; simp at he
            | cons l us' =>
              rw [hus] at h
              simp only [List.head?_cons, Run.ofOption_some, Run.bind_ok] at h
              have hlu : s.vars.get? l.id = some .notAssigned :=
                aucScan_unknowns s tc.clause us hscan l (by rw [hus]; simp)
              cases hsv : setVar s l.id (.assigned l.sign s.decisionLevel) with
              | ok s2 =>
                rw [hsv] at h
                simp only [Run.bind_ok] at h
                have hne : l.id ≠ i := by
                  intro he2
                  rw [he2, hv] at hlu
                  cases hlu
                have hv2 : s2.vars.get? i = some (.assigned sg lvl) := by
                  simp only [setVar] at hsv
                  split at hsv
                  · cases hsv
                    exact (List.get?_set_ne _ _ hne).trans hv
                  · cases hsv
                exact ih s2 true r h i sg lvl hv2
              | outOfFuel => rw [hsv] at h; cases h
              | crash => rw [hsv] at h; cases h
          · rw [if_neg h1] at h
            exact ih s updated r h i sg lvl hv
    | outOfFuel => rw [hscan] at h; cases h
    | crash => rw [hscan] at h; cases h

/-- Claim C10 (confirmed): `assign_unit_clause` never modifies a variable that
is already assigned when it is called: whatever boolean it returns, every
variable assigned before the call keeps exactly its sign and decision level. -/
theorem c10_frame (fuel : Nat) :
    ∀ (s : SatSolver) (b : Bool) (s' : SatSolver),
    assign_unit_clause fuel s = .ok (b, s') →
    ∀ i sg lvl, s.vars.get? i = some (.assigned sg lvl) →
    s'.vars.get? i = some (.assigned sg lvl) := by
  induction fuel with
  | zero =>
    intro s b s' h
    cases h
  | succ fuel ih =>
    intro s b s' h i sg lvl hv
    simp only [assign_unit_clause, Run.bind_eq] at h
    cases hpass : aucPass s false s.clauses with
    | ok r =>
      rw [hpass] at h
      simp only [Run.bind_ok] at h
      cases r with
      | foundEmpty s2 =>
        dsimp only [] at h
        cases h
        exact aucPass_frame s.clauses s false _ hpass i sg lvl hv
      | done s2 updated =>
        dsimp only [] at h
        have hv2 : s2.vars.get? i = some (.assigned sg lvl) :=
          aucPass_frame s.clauses s false (.done s2 updated) hpass i sg lvl hv
        by_cases hu : updated = true
        · rw [if_pos hu] at h
          exact ih s2 b s' h i sg lvl hv2
        · rw [if_neg hu] at h
          cases h
          exact hv2
    | outOfFuel => rw [hpass] at h; cases h
    | crash => rw [hpass] at h; cases h

/-- Witness for claim C10: running `assign_unit_clause` on `s8state` (where
variable 0 is assigned `true` at level 1) returns normally and leaves variable
0 assigned `true` at level 1. -/
theorem c10_witness : s8state.vars.get? 0 = some (.assigned true 1) :=
  c10_frame 5 s8state true s8state (by decide) 0 true 1 (by decide)

/-! ### Claim C2: `solve` is not total on satisfiable inputs -/

/-- Claim C2 is refuted by the code itself: on the satisfiable problem `P2`
(three clauses over two variables, satisfied by `x0 := false, x1 := true`),
`solve` PANICS instead of returning an assignment. The run learns the unit
clause `¬x0` with an empty trail, restarts through the trail-exhausted branch
of `try_backtrack`, where `assign_unit_clause` then assigns every variable, so
the `assert!(t)` after `try_next_assignment(0)` fires. The fuel bound 100 is
not the cause: the result is `Run.crash` (a panic), not `Run.outOfFuel`. -/
theorem c2_code_bug :
    solveFromProblem 100 P2 = Run.crash ∧
    check_assingemnt P2 [false, true] = .ok true :=
  ⟨by decide, by decide⟩

/-! ### Claim C5: length-1 clauses in the watch index -/

/-- Claim C5 is FALSE: solving `P5` succeeds with assignment
`[false, true]`, and in the final solver state (a point of the search) the
watch list of variable 0 is `[0, 1, 2, 2]`, which contains clause index 2
twice — and clause 2 is the LEARNT UNIT clause `¬x0` of length 1. -/
theorem c5_counterexample :
    solveAnswer (solveFromProblem 100 P5) = some (some [false, true]) ∧
    (finalState (solveFromProblem 100 P5)).map (fun s => watchAt s 0)
      = some [0, 1, 2, 2] ∧
    (finalState (solveFromProblem 100 P5)).map (fun s =>
      (s.clauses.get? 2).map (fun tc => tc.clause.length)) = some (some 1) :=
  ⟨by decide, by decide, by decide⟩

/-! ### Claim C9: the argument of the decision scan -/

/-- Claim C9 is FALSE: on `P9` the code returns the assignment
`[true, true, true]` (it scans for the next decision from the id `i` bound at
the START of the iteration), whereas the variant that scans from the id on
top of the trail after propagation skips the still-unassigned variable `x1`,
declares SAT early and PANICS on the `unwrap` of the unassigned variable while
extracting the assignment. -/
theorem c9_counterexample :
    solveAnswer (solveFromProblem 100 P9) = some (some [true, true, true]) ∧
    solveFromProblemTop 100 P9 = Run.crash :=
  ⟨by decide, by decide⟩

/-! ### Inversion helpers for the state accessors -/

theorem setVar_ok {s s' : SatSolver} {i : Nat} {v : VariableState}
    (h : setVar s i v = .ok s') :
    i < s.vars.length ∧ s' = { s with vars := s.vars.set i v } := by
  simp only [setVar] at h
  split at h
  · cases h
    constructor
    · assumption
    · rfl
  · cases h

theorem setWatchList_ok {s s' : SatSolver} {i : Nat} {w : List Nat}
    (h : setWatchList s i w = .ok s') :
    i < s.watch.length ∧ s' = { s with watch := s.watch.set i w } := by
  simp only [setWatchList] at h
  split at h
  · cases h
    constructor
    · assumption
    · rfl
  · cases h

theorem pushWatch_ok {s s' : SatSolver} {i cid : Nat}
    (h : pushWatch s i cid = .ok s') :
    ∃ w, s.watch.get? i = some w ∧ i < s.watch.length ∧
      s' = { s with watch := s.watch.set i (w ++ [cid]) } := by
  simp only [pushWatch, Run.bind_eq, getWatchList] at h
  cases hw : s.watch.get? i with
  | none => rw [hw] at h; cases h
  | some w =>
    rw [hw] at h
    simp only [Run.ofOption_some, Run.bind_ok] at h
    obtain ⟨hlt, hs⟩ := setWatchList_ok h
    exact ⟨w, rfl, hlt, hs⟩

theorem setWatched_ok {s s' : SatSolver} {cid slot : Nat} {l : Literal}
    (h : setWatched s cid slot l = .ok s') :
    ∃ tc, s.clauses.get? cid = some tc ∧
      s' = { s with clauses :=
        s.clauses.set cid (if slot == 0 then { tc with w1 := l } else { tc with w2 := l }) } := by
  simp only [setWatched] at h
  cases htc : s.clauses.get? cid with
  | none => rw [htc] at h; cases h
  | some tc =>
    rw [htc] at h
    cases h
    exact ⟨tc, rfl, rfl⟩

theorem setWatchedPair_ok {s s' : SatSolver} {cid : Nat} {la lb : Literal}
    (h : setWatchedPair s cid la lb = .ok s') :
    ∃ tc, s.clauses.get? cid = some tc ∧
      s' = { s with clauses := s.clauses.set cid { tc with w1 := la, w2 := lb } } := by
  simp only [setWatchedPair] at h
  cases htc : s.clauses.get? cid with
  | none => rw [htc] at h; cases h
  | some tc =>
    rw [htc] at h
    cases h
    exact ⟨tc, rfl, rfl⟩

theorem decLevel_ok_eq {s s' : SatSolver} (h : decLevel s = .ok s') :
    s' = { s with decisionLevel := s.decisionLevel - 1 } := by
  simp only [decLevel] at h
  split at h
  · cases h
  · cases h
    rfl

theorem bind_eq_ok {α β : Type} {x : Run α} {f : α → Run β} {b : β}
    (h : Run.bind x f = .ok b) : ∃ a, x = .ok a ∧ f a = .ok b := by
  cases x with
  | ok a => exact ⟨a, rfl, h⟩
  | outOfFuel => cases h
  | crash => cases h

/-! ### Preservation of the problem and of the variable count (for claim C1) -/

theorem Pres.rfl' (s : SatSolver) : Pres s s := ⟨rfl, rfl⟩

theorem Pres.trans' {a b c : SatSolver} (h1 : Pres a b) (h2 : Pres b c) :
    Pres a c := ⟨h2.1.trans h1.1, h2.2.trans h1.2⟩

theorem setVar_pres {s s' : SatSolver} {i : Nat} {v : VariableState}
    (h : setVar s i v = .ok s') : Pres s s' := by
  obtain ⟨-, rfl⟩ := setVar_ok h
  exact ⟨rfl, List.length_set ..⟩

theorem setWatchList_pres {s s' : SatSolver} {i : Nat} {w : List Nat}
    (h : setWatchList s i w = .ok s') : Pres s s' := by
  obtain ⟨-, rfl⟩ := setWatchList_ok h
  exact ⟨rfl, rfl⟩

theorem pushWatch_pres {s s' : SatSolver} {i cid : Nat}
    (h : pushWatch s i cid = .ok s') : Pres s s' := by
  obtain ⟨w, -, -, rfl⟩ := pushWatch_ok h
  exact ⟨rfl, rfl⟩

theorem setWatched_pres {s s' : SatSolver} {cid slot : Nat} {l : Literal}
    (h : setWatched s cid slot l = .ok s') : Pres s s' := by
  obtain ⟨tc, -, rfl⟩ := setWatched_ok h
  exact ⟨rfl, rfl⟩

theorem setWatchedPair_pres {s s' : SatSolver} {cid : Nat} {la lb : Literal}
    (h : setWatchedPair s cid la lb = .ok s') : Pres s s' := by
  obtain ⟨tc, -, rfl⟩ := setWatchedPair_ok h
  exact ⟨rfl, rfl⟩

theorem decLevel_pres {s s' : SatSolver} (h : decLevel s = .ok s') : Pres s s' := by
  rw [decLevel_ok_eq h]
  exact ⟨rfl, rfl⟩

theorem aucPass_pres (tcs : List TaggedClause) :
    ∀ (s : SatSolver) (u : Bool) (r : AucPassRes),
    aucPass s u tcs = .ok r → Pres s r.state := by
  induction tcs with
  | nil =>
    intro s u r h
    cases h
    exact Pres.rfl' s
  | cons tc rest ih =>
    intro s u r h
    simp only [aucPass, Run.bind_eq] at h
    obtain ⟨sr, hscan, h⟩ := bind_eq_ok h
    cases sr with
    | satisfied => exact ih s u r h
    | unknowns us =>
      dsimp only [] at h
      by_cases he : us.isEmpty = true
      · rw [if_pos he] at h
        cases h
        exact Pres.rfl' s
      · rw [if_neg he] at h
        by_cases h1 : (us.length == 1) = true
        · rw [if_pos h1] at h
          obtain ⟨l, -, h⟩ := bind_eq_ok h
          obtain ⟨s2, hsv, h⟩ := bind_eq_ok h
          exact (setVar_pres hsv).trans' (ih s2 true r h)
        · rw [if_neg h1] at h
          exact ih s u r h

theorem assign_unit_clause_pres (fuel : Nat) :
    ∀ (s : SatSolver) (b : Bool) (s' : SatSolver),
    assign_unit_clause fuel s = .ok (b, s') → Pres s s' := by
  induction fuel with
  | zero => intro s b s' h; cases h
  | succ fuel ih =>
    intro s b s' h
    simp only [assign_unit_clause, Run.bind_eq] at h
    obtain ⟨r, hpass, h⟩ := bind_eq_ok h
    cases r with
    | foundEmpty s2 =>
      dsimp only [] at h
      cases h
      exact aucPass_pres s.clauses s false _ hpass
    | done s2 updated =>
      dsimp only [] at h
      have hp : Pres s s2 := aucPass_pres s.clauses s false (.done s2 updated) hpass
      by_cases hu : updated = true
      · rw [if_pos hu] at h
        exact hp.trans' (ih s2 b s' h)
      · rw [if_neg hu] at h
        cases h
        exact hp

theorem tnaGo_pres (count : Nat) :
    ∀ (s : SatSolver) (k : Nat) (b : Bool) (s' : SatSolver),
    tnaGo s k count = .ok (b, s') → Pres s s' := by
  induction count with
  | zero =>
    intro s k b s' h
    cases h
    exact Pres.rfl' s
  | succ count ih =>
    intro s k b s' h
    simp only [tnaGo, Run.bind_eq] at h
    obtain ⟨v, -, h⟩ := bind_eq_ok h
    by_cases hna : v.isNotAssigned = true
    · rw [if_pos hna] at h
      cases h
      exact ⟨rfl, rfl⟩
    · rw [if_neg hna] at h
      exact ih s (k + 1) b s' h

theorem try_next_assignment_pres {s : SatSolver} {k : Nat} {b : Bool}
    {s' : SatSolver} (h : try_next_assignment s k = .ok (b, s')) : Pres s s' :=
  tnaGo_pres _ s k b s' h

theorem learn_clause_pres {s : SatSolver} {c : Clause} {s' : SatSolver}
    (h : learn_clause s c = .ok s') : Pres s s' := by
  simp only [learn_clause, Run.bind_eq] at h
  obtain ⟨⟨a, na⟩, -, h⟩ := bind_eq_ok h
  dsimp only [] at h
  have htail : ∀ (l1 l2 : Literal),
      Run.bind (pushWatch { s with clauses := s.clauses ++ [⟨c, true, l1, l2⟩] }
          l1.id s.clauses.length)
        (fun s1 => Run.bind (pushWatch s1 l2.id s.clauses.length)
          (fun s2 => Run.ok s2)) = .ok s' →
      Pres s s' := by
    intro l1 l2 hh
    obtain ⟨s2, hp1, hh⟩ := bind_eq_ok hh
    obtain ⟨s3, hp2, hh⟩ := bind_eq_ok hh
    cases hh
    have h0 : Pres s { s with clauses := s.clauses ++ [⟨c, true, l1, l2⟩] } :=
      ⟨rfl, rfl⟩
    exact h0.trans' ((pushWatch_pres hp1).trans' (pushWatch_pres hp2))
  by_cases hc2 : na.length ≥ 2
  · rw [if_pos hc2] at h
    obtain ⟨⟨l1, l2⟩, he, h⟩ := bind_eq_ok h
    cases he
    exact htail _ _ h
  · rw [if_neg hc2] at h
    by_cases hc1 : (na.length == 1) = true
    · rw [if_pos hc1] at h
      by_cases hcl : c.length ≥ 2
      · rw [if_pos hcl] at h
        by_cases hae : a.isEmpty = true
        · rw [if_pos hae] at h
          simp only [Run.bind_crash] at h
          cases h
        · rw [if_neg hae] at h
          obtain ⟨m, -, h⟩ := bind_eq_ok h
          obtain ⟨⟨l1, l2⟩, he, h⟩ := bind_eq_ok h
          cases he
          exact htail _ _ h
      · rw [if_neg hcl] at h
        obtain ⟨l0, -, h⟩ := bind_eq_ok h
        obtain ⟨⟨l1, l2⟩, he, h⟩ := bind_eq_ok h
        cases he
        exact htail _ _ h
    · rw [if_neg hc1] at h
      simp only [Run.bind_crash] at h
      cases h

theorem bjLoop_pres (fuel : Nat) :
    ∀ (s : SatSolver) (c : Clause) (second : Nat) (b : Bool) (s' : SatSolver),
    bjLoop fuel s c second = .ok (b, s') → Pres s s' := by
  induction fuel with
  | zero => intro s c second b s' h; cases h
  | succ fuel ih =>
    intro s c second b s' h
    simp only [bjLoop] at h
    cases hst : s.dpllStack with
    | nil =>
      rw [hst] at h
      dsimp only [] at h
      by_cases hz : (second != 0) = true
      · rw [if_pos hz] at h
        cases h
      · rw [if_neg hz] at h
        simp only [Run.bind_eq] at h
        obtain ⟨s1, hl, h⟩ := bind_eq_ok h
        obtain ⟨⟨b2, s2⟩, ha, h⟩ := bind_eq_ok h
        dsimp only [] at h
        obtain ⟨⟨t, s3⟩, ht, h⟩ := bind_eq_ok h
        dsimp only [] at h
        by_cases htt : t = true
        · rw [if_pos htt] at h
          cases h
          exact ((learn_clause_pres hl).trans'
            (assign_unit_clause_pres fuel s1 b2 s2 ha)).trans'
            (try_next_assignment_pres ht)
        · rw [if_neg htt] at h
          cases h
    | cons top rest =>
      rw [hst] at h
      obtain ⟨k, st⟩ := top
      have hpres0 : Pres s { s with dpllStack := rest } := ⟨rfl, rfl⟩
      cases st with
      | first =>
        dsimp only [] at h
        by_cases hle : s.decisionLevel ≤ second
        · rw [if_pos hle] at h
          simp only [Run.bind_eq] at h
          obtain ⟨s1, hl, h⟩ := bind_eq_ok h
          cases h
          refine Pres.trans' ?_ (learn_clause_pres hl)
          exact ⟨rfl, rfl⟩
        · rw [if_neg hle] at h
          simp only [Run.bind_eq] at h
          obtain ⟨s1, hsv, h⟩ := bind_eq_ok h
          obtain ⟨s2, hdl, h⟩ := bind_eq_ok h
          exact (hpres0.trans' (setVar_pres hsv)).trans'
            ((decLevel_pres hdl).trans' (ih s2 c second b s' h))
      | second =>
        dsimp only [] at h
        by_cases hle : s.decisionLevel ≤ second
        · rw [if_pos hle] at h
          simp only [Run.bind_eq] at h
          obtain ⟨s1, hl, h⟩ := bind_eq_ok h
          cases h
          refine Pres.trans' ?_ (learn_clause_pres hl)
          exact ⟨rfl, rfl⟩
        · rw [if_neg hle] at h
          simp only [Run.bind_eq] at h
          obtain ⟨s1, hsv, h⟩ := bind_eq_ok h
          obtain ⟨s2, hdl, h⟩ := bind_eq_ok h
          exact (hpres0.trans' (setVar_pres hsv)).trans'
            ((decLevel_pres hdl).trans' (ih s2 c second b s' h))
      | propagated cid =>
        dsimp only [] at h
        simp only [Run.bind_eq] at h
        obtain ⟨s1, hsv, h⟩ := bind_eq_ok h
        exact (hpres0.trans' (setVar_pres hsv)).trans' (ih s1 c second b s' h)

theorem btLoop_pres (fuel : Nat) :
    ∀ (s : SatSolver) (c : Clause) (b : Bool) (s' : SatSolver),
    btLoop fuel s c = .ok (b, s') → Pres s s' := by
  induction fuel with
  | zero => intro s c b s' h; cases h
  | succ fuel ih =>
    intro s c b s' h
    simp only [btLoop] at h
    cases hst : s.dpllStack with
    | nil =>
      rw [hst] at h
      cases h
      exact Pres.rfl' s
    | cons top rest =>
      rw [hst] at h
      obtain ⟨k, st⟩ := top
      have hpres0 : Pres s { s with dpllStack := rest } := ⟨rfl, rfl⟩
      cases st with
      | first =>
        dsimp only [] at h
        cases h
        exact ⟨rfl, rfl⟩
      | second =>
        dsimp only [] at h
        simp only [Run.bind_eq] at h
        obtain ⟨s1, hsv, h⟩ := bind_eq_ok h
        obtain ⟨s2, hdl, h⟩ := bind_eq_ok h
        exact (hpres0.trans' (setVar_pres hsv)).trans'
          ((decLevel_pres hdl).trans' (ih s2 c b s' h))
      | propagated cid =>
        dsimp only [] at h
        simp only [Run.bind_eq] at h
        obtain ⟨s1, hsv, h⟩ := bind_eq_ok h
        obtain ⟨tc, -, h⟩ := bind_eq_ok h
        have hp1 : Pres s s1 := hpres0.trans' (setVar_pres hsv)
        cases hres : resolution c tc.clause with
        | none =>
          rw [hres] at h
          exact hp1.trans' (ih s1 c b s' h)
        | some newClause =>
          rw [hres] at h
          dsimp only [] at h
          obtain ⟨n, -, h⟩ := bind_eq_ok h
          by_cases hn : (n == 1) = true
          · rw [if_pos hn] at h
            obtain ⟨second, -, h⟩ := bind_eq_ok h
            by_cases hgt : s1.decisionLevel > second
            · rw [if_pos hgt] at h
              exact hp1.trans' (bjLoop_pres fuel s1 newClause second b s' h)
            · rw [if_neg hgt] at h
              cases h
          · rw [if_neg hn] at h
            exact hp1.trans' (ih s1 newClause b s' h)

theorem try_backtrack_pres {fuel : Nat} {s : SatSolver} {cid : Nat} {b : Bool}
    {s' : SatSolver} (h : try_backtrack fuel s cid = .ok (b, s')) : Pres s s' := by
  simp only [try_backtrack, Run.bind_eq] at h
  obtain ⟨tc, -, h⟩ := bind_eq_ok h
  have h0 : Pres s { s with conflictCount := s.conflictCount + 1 } := ⟨rfl, rfl⟩
  exact h0.trans' (btLoop_pres fuel _ tc.clause b s' h)

theorem visitClauses_pres (fuel id : Nat) (cids : List Nat) :
    ∀ (s : SatSolver) (q : List Nat) (r : VisitRes),
    visitClauses fuel id s q cids = .ok r → Pres s r.state := by
  induction cids with
  | nil =>
    intro s q r h
    cases h
    exact Pres.rfl' s
  | cons cid rest ih =>
    intro s q r h
    simp only [visitClauses, Run.bind_eq] at h
    obtain ⟨tc, -, h⟩ := bind_eq_ok h
    by_cases hlen : (tc.clause.length == 1) = true
    · rw [if_pos hlen] at h
      cases h
    · rw [if_neg hlen] at h
      obtain ⟨prev_i, -, h⟩ := bind_eq_ok h
      cases hslot : (if tc.w1.id == id then some 0 else if tc.w2.id == id then some 1
          else (none : Option Nat)) with
      | none =>
        rw [hslot] at h
        exact ih s q r h
      | some slot =>
        rw [hslot] at h
        dsimp only [] at h
        obtain ⟨plit, -, h⟩ := bind_eq_ok h
        obtain ⟨v, -, h⟩ := bind_eq_ok h
        obtain ⟨vsign, -, h⟩ := bind_eq_ok h
        by_cases hsat : (plit.sign == vsign) = true
        · rw [if_pos hsat] at h
          exact ih s q r h
        · rw [if_neg hsat] at h
          obtain ⟨next, -, h⟩ := bind_eq_ok h
          cases next with
          | some nl =>
            dsimp only [] at h
            by_cases he1 : (id == nl.id) = true
            · rw [if_pos he1] at h
              cases h
            · rw [if_neg he1] at h
              by_cases he2 : (!((if slot == 0 then tc.w1 else tc.w2).id == id)) = true
              · rw [if_pos he2] at h
                cases h
              · rw [if_neg he2] at h
                by_cases he3 : ((if slot == 0 then tc.w1 else tc.w2).id == nl.id) = true
                · rw [if_pos he3] at h
                  cases h
                · rw [if_neg he3] at h
                  obtain ⟨s1, hsw, h⟩ := bind_eq_ok h
                  obtain ⟨wl, -, h⟩ := bind_eq_ok h
                  obtain ⟨s2, hswl, h⟩ := bind_eq_ok h
                  obtain ⟨s3, hpw, h⟩ := bind_eq_ok h
                  exact ((setWatched_pres hsw).trans'
                    ((setWatchList_pres hswl).trans' (pushWatch_pres hpw))).trans'
                    (ih s3 q r h)
          | none =>
            dsimp only [] at h
            obtain ⟨v2, -, h⟩ := bind_eq_ok h
            cases v2 with
            | notAssigned =>
              dsimp only [] at h
              obtain ⟨s1, hsv, h⟩ := bind_eq_ok h
              have h1 : Pres s s1 := setVar_pres hsv
              have h2 : Pres s1 { s1 with dpllStack :=
                  ((if slot == 0 then tc.w2 else tc.w1).id,
                    AssignmentState.propagated cid) :: s1.dpllStack } := ⟨rfl, rfl⟩
              exact (h1.trans' h2).trans' (ih _ _ r h)
            | assigned sg lvl =>
              dsimp only [] at h
              by_cases hconf : (sg != (if slot == 0 then tc.w2 else tc.w1).sign) = true
              · rw [if_pos hconf] at h
                obtain ⟨⟨succeeded, s1⟩, hbt, h⟩ := bind_eq_ok h
                dsimp only [] at h
                have h1 : Pres s s1 := try_backtrack_pres hbt
                by_cases hsucc : succeeded = true
                · rw [if_pos hsucc] at h
                  cases h
                  exact h1
                · rw [if_neg hsucc] at h
                  cases h
                  exact h1
              · rw [if_neg hconf] at h
                exact ih s q r h

theorem propVisit_pres {fuel : Nat} {s : SatSolver} {id : Nat} {q : List Nat}
    {r : VisitRes} (h : propVisit fuel s id q = .ok r) : Pres s r.state := by
  simp only [propVisit, Run.bind_eq] at h
  obtain ⟨snap, -, h⟩ := bind_eq_ok h
  exact visitClauses_pres fuel id snap s q r h

theorem propLoop_pres (fuel : Nat) :
    ∀ (s : SatSolver) (q visited log : List Nat) (r : PropRes),
    propLoop fuel s q visited log = .ok r → Pres s r.state := by
  induction fuel with
  | zero => intro s q visited log r h; cases h
  | succ fuel ih =>
    intro s q visited log r h
    simp only [propLoop] at h
    cases hpop : dequePopBack q with
    | none =>
      rw [hpop] at h
      cases h
      exact Pres.rfl' s
    | some idq =>
      rw [hpop] at h
      obtain ⟨id, q2⟩ := idq
      dsimp only [] at h
      by_cases hvis : visited.contains id = true
      · rw [if_pos hvis] at h
        exact ih s q2 visited log r h
      · rw [if_neg hvis] at h
        simp only [Run.bind_eq] at h
        obtain ⟨vr, hpv, h⟩ := bind_eq_ok h
        have h1 : Pres s vr.state := propVisit_pres hpv
        cases vr with
        | proceed s1 q3 =>
          dsimp only [] at h
          exact h1.trans' (ih s1 q3 (id :: visited) (log ++ [id]) r h)
        | again s1 =>
          dsimp only [] at h
          cases h
          exact h1
        | unsatR s1 =>
          dsimp only [] at h
          cases h
          exact h1

theorem iwGo_pres (count : Nat) :
    ∀ (s : SatSolver) (idx : Nat) (s' : SatSolver),
    iwGo count s idx = .ok s' → Pres s s' := by
  induction count with
  | zero =>
    intro s idx s' h
    cases h
    exact Pres.rfl' s
  | succ count ih =>
    intro s idx s' h
    simp only [iwGo, Run.bind_eq] at h
    obtain ⟨tc, -, h⟩ := bind_eq_ok h
    by_cases hlen : tc.clause.length ≥ 2
    · rw [if_pos hlen] at h
      obtain ⟨l0, -, h⟩ := bind_eq_ok h
      obtain ⟨l1, -, h⟩ := bind_eq_ok h
      obtain ⟨s1, hp0, h⟩ := bind_eq_ok h
      obtain ⟨s2, hp1, h⟩ := bind_eq_ok h
      obtain ⟨s3, hsp, h⟩ := bind_eq_ok h
      exact ((pushWatch_pres hp0).trans'
        ((pushWatch_pres hp1).trans' (setWatchedPair_pres hsp))).trans'
        (ih s3 (idx + 1) s' h)
    · rw [if_neg hlen] at h
      obtain ⟨l0, -, h⟩ := bind_eq_ok h
      obtain ⟨s1, hsp, h⟩ := bind_eq_ok h
      exact (setWatchedPair_pres hsp).trans' (ih s1 (idx + 1) s' h)

theorem init_watch_pres {s s' : SatSolver} (h : init_watch s = .ok s') :
    Pres s s' :=
  iwGo_pres s.clauses.length s 0 s' h

/-! ### Claim C1: a returned SAT assignment satisfies every original clause -/

theorem ofOption_eq_ok {α : Type} {o : Option α} {a : α}
    (h : Run.ofOption o = .ok a) : o = some a := by
  cases o with
  | none => cases h
  | some b => cases h; rfl

theorem extractAssign_length : ∀ (vs : List VariableState) (xs : List Bool),
    extractAssign vs = .ok xs → xs.length = vs.length := by
  intro vs
  induction vs with
  | nil => intro xs h; cases h; rfl
  | cons v rest ih =>
    intro xs h
    simp only [extractAssign, Run.bind_eq] at h
    obtain ⟨b, -, h⟩ := bind_eq_ok h
    obtain ⟨bs, hbs, h⟩ := bind_eq_ok h
    cases h
    simp [ih bs hbs]

theorem checkClause_sem (a : List Bool) : ∀ (c : Clause),
    checkClause a c = .ok true → ∃ l ∈ c, a.get? l.id = some l.sign := by
  intro c
  induction c with
  | nil => intro h; cases h
  | cons x rest ih =>
    intro h
    simp only [checkClause, Run.bind_eq] at h
    obtain ⟨b, hb, h⟩ := bind_eq_ok h
    by_cases hbs : (b == x.sign) = true
    · rw [if_pos hbs] at h
      have hget : a.get? x.id = some b := ofOption_eq_ok hb
      refine ⟨x, by simp, ?_⟩
      rw [hget, beq_iff_eq.mp hbs]
    · rw [if_neg hbs] at h
      obtain ⟨l, hl, hsat⟩ := ih h
      exact ⟨l, by simp [hl], hsat⟩

theorem checkClauses_sem (a : List Bool) : ∀ (cls : List Clause),
    checkClauses a cls = .ok true →
    ∀ c ∈ cls, ∃ l ∈ c, a.get? l.id = some l.sign := by
  intro cls
  induction cls with
  | nil => intro h c hc; cases hc
  | cons c0 rest ih =>
    intro h c hc
    simp only [checkClauses, Run.bind_eq] at h
    obtain ⟨tf, htf, h⟩ := bind_eq_ok h
    by_cases ht : tf = true
    · rw [if_pos ht] at h
      rcases List.mem_cons.mp hc with h1 | h1
      · subst h1
        rw [ht] at htf
        exact checkClause_sem a c htf
      · exact ih h c h1
    · rw [if_neg ht] at h
      cases h

theorem new_ok {p : SatProblem} {s0 : SatSolver} (h : SatSolver.new p = .ok s0) :
    s0.problem = p ∧ s0.vars.length = p.nVariables := by
  simp only [SatSolver.new, Run.bind_eq] at h
  obtain ⟨tcs, -, h⟩ := bind_eq_ok h
  cases h
  exact ⟨rfl, List.length_replicate ..⟩

theorem solveLoop_sat (fuel : Nat) :
    ∀ (fs : List Bool) (s : SatSolver) (a : List Bool) (s' : SatSolver),
    solveLoop fuel fs s = .ok (some a, s') →
    a.length = s.vars.length ∧
    ∀ c ∈ s.problem.clauses, ∃ l ∈ c, a.get? l.id = some l.sign := by
  induction fuel with
  | zero => intro fs s a s' h; cases h
  | succ fuel ih =>
    intro fs s a s' h
    simp only [solveLoop, Run.bind_eq] at h
    obtain ⟨top, -, h⟩ := bind_eq_ok h
    obtain ⟨i, st⟩ := top
    dsimp only [] at h
    obtain ⟨s1, hreal, h⟩ := bind_eq_ok h
    have hp1 : Pres s s1 := by
      cases st with
      | first =>
        simp only [realizeTop, Run.bind_eq] at hreal
        obtain ⟨sg, -, hreal⟩ := bind_eq_ok hreal
        exact setVar_pres hreal
      | second =>
        simp only [realizeTop, Run.bind_eq] at hreal
        obtain ⟨v, -, hreal⟩ := bind_eq_ok hreal
        obtain ⟨sg, -, hreal⟩ := bind_eq_ok hreal
        exact setVar_pres hreal
      | propagated c => cases hreal
    obtain ⟨pr, hpb, h⟩ := bind_eq_ok h
    have hp2 : Pres s1 pr.state := by
      simp only [propagateBatch] at hpb
      exact propLoop_pres fuel s1 _ _ _ pr hpb
    cases pr with
    | again s2 =>
      dsimp only [] at h
      dsimp only [PropRes.state] at hp2
      obtain ⟨hq1, hq2⟩ := ih fs s2 a s' h
      refine ⟨?_, ?_⟩
      · rw [hq1, (hp1.trans' hp2).2]
      · rw [show s.problem = s2.problem from (hp1.trans' hp2).1.symm]
        exact hq2
    | unsatR s2 =>
      dsimp only [] at h
      cases h
    | clean s2 log =>
      dsimp only [] at h
      dsimp only [PropRes.state] at hp2
      obtain ⟨⟨t, s3⟩, htna, h⟩ := bind_eq_ok h
      dsimp only [] at h
      have hp3 : Pres s s3 :=
        (hp1.trans' hp2).trans' (try_next_assignment_pres htna)
      by_cases ht : t = true
      · rw [if_pos ht] at h
        obtain ⟨hq1, hq2⟩ := ih fs s3 a s' h
        refine ⟨?_, ?_⟩
        · rw [hq1, hp3.2]
        · rw [show s.problem = s3.problem from hp3.1.symm]
          exact hq2
      · rw [if_neg ht] at h
        obtain ⟨xs, hex, h⟩ := bind_eq_ok h
        obtain ⟨okb, hchk, h⟩ := bind_eq_ok h
        by_cases hok : okb = true
        · rw [if_pos hok] at h
          cases h
          refine ⟨?_, ?_⟩
          · rw [extractAssign_length s'.vars a hex, hp3.2]
          · rw [hok] at hchk
            simp only [check_assingemnt] at hchk
            rw [show s.problem = s'.problem from hp3.1.symm]
            exact checkClauses_sem _ _ hchk
        · rw [if_neg hok] at h
          cases h

theorem solve_sat {fuel : Nat} {s : SatSolver} {a : List Bool} {s' : SatSolver}
    (h : solve fuel s = .ok (some a, s')) :
    a.length = s.vars.length ∧
    ∀ c ∈ s.problem.clauses, ∃ l ∈ c, a.get? l.id = some l.sign := by
  simp only [solve, Run.bind_eq] at h
  obtain ⟨⟨succ1, s1⟩, hauc, h⟩ := bind_eq_ok h
  dsimp only [] at h
  have hp1 : Pres s s1 := assign_unit_clause_pres fuel s succ1 s1 hauc
  by_cases hsucc : (!succ1) = true
  · rw [if_pos hsucc] at h
    cases h
  · rw [if_neg hsucc] at h
    obtain ⟨s2, hiw, h⟩ := bind_eq_ok h
    obtain ⟨fs, -, h⟩ := bind_eq_ok h
    obtain ⟨⟨t, s3⟩, htna, h⟩ := bind_eq_ok h
    dsimp only [] at h
    have hp3 : Pres s s3 :=
      (hp1.trans' (init_watch_pres hiw)).trans' (try_next_assignment_pres htna)
    by_cases hnt : (!t) = true
    · rw [if_pos hnt] at h
      obtain ⟨xs, hex, h⟩ := bind_eq_ok h
      obtain ⟨okb, hchk, h⟩ := bind_eq_ok h
      by_cases hok : okb = true
      · rw [if_pos hok] at h
        cases h
        refine ⟨?_, ?_⟩
        · rw [extractAssign_length s'.vars a hex, hp3.2]
        · rw [hok] at hchk
          simp only [check_assingemnt] at hchk
          rw [show s.problem = s'.problem from hp3.1.symm]
          exact checkClauses_sem _ _ hchk
      · rw [if_neg hok] at h
        cases h
    · rw [if_neg hnt] at h
      obtain ⟨hq1, hq2⟩ := solveLoop_sat fuel fs s3 a s' h
      refine ⟨?_, ?_⟩
      · rw [hq1, hp3.2]
      · rw [show s.problem = s3.problem from hp3.1.symm]
        exact hq2

/-- Claim C1 (confirmed): whenever `solve` on a freshly constructed solver
returns a SAT result, the returned assignment has one entry per variable of
the problem and satisfies every original clause: each clause contains a
literal `l` with `A[l.id] = l.sign`. -/
theorem c1_sat_sound (fuel : Nat) (p : SatProblem) (a : List Bool)
    (h : solveAnswer (solveFromProblem fuel p) = some (some a)) :
    a.length = p.nVariables ∧
    ∀ c ∈ p.clauses, ∃ l ∈ c, a.get? l.id = some l.sign := by
  cases hrun : solveFromProblem fuel p with
  | ok v =>
    obtain ⟨ans, sfin⟩ := v
    rw [hrun] at h
    simp only [solveAnswer] at h
    cases h
    simp only [solveFromProblem, Run.bind_eq] at hrun
    obtain ⟨s0, hnew, hrun⟩ := bind_eq_ok hrun
    obtain ⟨hprob, hlen⟩ := new_ok hnew
    obtain ⟨hq1, hq2⟩ := solve_sat hrun
    refine ⟨by rw [hq1, hlen], ?_⟩
    rw [hprob] at hq2
    exact hq2
  | outOfFuel => rw [hrun] at h; cases h
  | crash => rw [hrun] at h; cases h

/-- Witness for claim C1: solving the unit problem `P1 = {x0}` returns the
assignment `[true]`, which has length 1 and satisfies the only clause. -/
theorem c1_witness :
    [true].length = P1.nVariables ∧
    ∀ c ∈ P1.clauses, ∃ l ∈ c, [true].get? l.id = some l.sign :=
  c1_sat_sound 10 P1 [true] (by decide)

/-! ### Claim C5 (amended): watch-list registration -/

theorem watchAt_of_get {s : SatSolver} {v : Nat} {w : List Nat}
    (h : s.watch.get? v = some w) : watchAt s v = w := by
  rw [List.get?_eq_getElem?] at h
  simp only [watchAt, List.getD_eq_getElem?_getD, h, Option.getD_some]

theorem pushWatch_watchAt {s s' : SatSolver} {i c : Nat}
    (h : pushWatch s i c = .ok s') :
    ∀ v cid, cid ∈ watchAt s' v → cid ∈ watchAt s v ∨ cid = c := by
  obtain ⟨w, hw, hlt, rfl⟩ := pushWatch_ok h
  intro v cid hmem
  by_cases hv : v = i
  · subst hv
    rw [watchAt_of_get (s := { s with watch := s.watch.set v (w ++ [c]) })
      (by rw [List.get?_eq_getElem?]; exact List.getElem?_set_self hlt)] at hmem
    rcases List.mem_append.mp hmem with hm | hm
    · rw [watchAt_of_get hw]
      exact Or.inl hm
    · right
      simpa using hm
  · left
    have he : watchAt { s with watch := s.watch.set i (w ++ [c]) } v = watchAt s v := by
      simp only [watchAt, List.getD_eq_getElem?_getD]
      rw [List.getElem?_set_ne (fun e => hv e.symm)]
    rw [he] at hmem
    exact hmem

theorem setWatchedPair_clauses {s s' : SatSolver} {cid : Nat} {la lb : Literal}
    (h : setWatchedPair s cid la lb = .ok s') (k : Nat) :
    (s'.clauses.get? k).map TaggedClause.clause
      = (s.clauses.get? k).map TaggedClause.clause := by
  obtain ⟨tc, htc, rfl⟩ := setWatchedPair_ok h
  by_cases hk : k = cid
  · subst hk
    rw [List.get?_eq_getElem?] at htc
    have hlt : k < s.clauses.length := by
      rcases Nat.lt_or_ge k s.clauses.length with hl | hg
    
      · exact hl
      · rw [List.getElem?_eq_none hg] at htc
        cases htc
    simp only [List.get?_eq_getElem?]
    rw [List.getElem?_set_self (by simpa using hlt), htc]
    rfl
  · simp only [List.get?_eq_getElem?]
    rw [List.getElem?_set_ne (fun e => hk e.symm)]

theorem iwGo_clauses (count : Nat) :
    ∀ (s : SatSolver) (idx : Nat) (s' : SatSolver),
    iwGo count s idx = .ok s' → ∀ k,
    (s'.clauses.get? k).map TaggedClause.clause
      = (s.clauses.get? k).map TaggedClause.clause := by
  induction count with
  | zero =>
    intro s idx s' h k
    cases h
    rfl
  | succ count ih =>
    intro s idx s' h k
    simp only [iwGo, Run.bind_eq] at h
    obtain ⟨tc, -, h⟩ := bind_eq_ok h
    by_cases hlen : tc.clause.length ≥ 2
    · rw [if_pos hlen] at h
      obtain ⟨l0, -, h⟩ := bind_eq_ok h
      obtain ⟨l1, -, h⟩ := bind_eq_ok h
      obtain ⟨s1, hp0, h⟩ := bind_eq_ok h
      obtain ⟨s2, hp1, h⟩ := bind_eq_ok h
      obtain ⟨s3, hsp, h3⟩ := bind_eq_ok h
      have e3 := setWatchedPair_clauses hsp k
      obtain ⟨w1, -, -, rfl⟩ := pushWatch_ok hp0
      obtain ⟨w2, -, -, rfl⟩ := pushWatch_ok hp1
      rw [ih _ _ _ h3 k, e3]
    · rw [if_neg hlen] at h
      obtain ⟨l0, -, h⟩ := bind_eq_ok h
      obtain ⟨s1, hsp, h3⟩ := bind_eq_ok h
      rw [ih _ _ _ h3 k, setWatchedPair_clauses hsp k]

theorem iwGo_watch (count : Nat) :
    ∀ (s : SatSolver) (idx : Nat) (s' : SatSolver),
    iwGo count s idx = .ok s' → ∀ v cid, cid ∈ watchAt s' v →
    cid ∈ watchAt s v ∨ ∃ tc, s.clauses.get? cid = some tc ∧ 2 ≤ tc.clause.length := by
  induction count with
  | zero =>
    intro s idx s' h v cid hmem
    cases h
    exact Or.inl hmem
  | succ count ih =>
    intro s idx s' h v cid hmem
    simp only [iwGo, Run.bind_eq] at h
    obtain ⟨tc, htg, h⟩ := bind_eq_ok h
    have htc : s.clauses.get? idx = some tc := ofOption_eq_ok htg
    by_cases hlen : tc.clause.length ≥ 2
    · rw [if_pos hlen] at h
      obtain ⟨l0, -, h⟩ := bind_eq_ok h
      obtain ⟨l1, -, h⟩ := bind_eq_ok h
      obtain ⟨s1, hp0, h⟩ := bind_eq_ok h
      obtain ⟨s2, hp1, h⟩ := bind_eq_ok h
      obtain ⟨s3, hsp, h3⟩ := bind_eq_ok h
      have e3 := setWatchedPair_clauses hsp cid
      obtain ⟨w1, -, -, rfl⟩ := pushWatch_ok hp0
      obtain ⟨w2, -, -, rfl⟩ := pushWatch_ok hp1
      obtain ⟨tcx, -, rfl⟩ := setWatchedPair_ok hsp
      rcases ih _ _ _ h3 v cid hmem with hm3 | ⟨tc3, htc3, hlen3⟩
      · rcases pushWatch_watchAt hp1 v cid hm3 with hm2 | rfl
        · rcases pushWatch_watchAt hp0 v cid hm2 with hm1 | rfl
          · exact Or.inl hm1
          · exact Or.inr ⟨tc, htc, hlen⟩
        · exact Or.inr ⟨tc, htc, hlen⟩
      · rw [htc3] at e3
        obtain ⟨tc0, htc0, hcl⟩ := Option.map_eq_some'.mp e3.symm
        refine Or.inr ⟨tc0, htc0, ?_⟩
        rw [hcl]
        exact hlen3
    · rw [if_neg hlen] at h
      obtain ⟨l0, -, h⟩ := bind_eq_ok h
      obtain ⟨s1, hsp, h3⟩ := bind_eq_ok h
      have e1 := setWatchedPair_clauses hsp cid
      obtain ⟨tcx, -, rfl⟩ := setWatchedPair_ok hsp
      rcases ih _ _ _ h3 v cid hmem with hm1 | ⟨tc3, htc3, hlen3⟩
      · exact Or.inl hm1
      · rw [htc3] at e1
        obtain ⟨tc0, htc0, hcl⟩ := Option.map_eq_some'.mp e1.symm
        refine Or.inr ⟨tc0, htc0, ?_⟩
        rw [hcl]
        exact hlen3


theorem learn_unit_watch {s : SatSolver} {l : Literal} {s' : SatSolver}
    (hvar : s.vars.get? l.id = some .notAssigned)
    (h : learn_clause s [l] = .ok s') :
    watchAt s' l.id = watchAt s l.id ++ [s.clauses.length, s.clauses.length] := by
  have hclass : classifyLits s [l] = .ok ([], [l]) := by
    simp only [classifyLits, getVar, hvar, Run.ofOption_some, Run.bind_eq, Run.bind_ok]
  simp only [learn_clause, hclass, Run.bind_eq, Run.bind_ok] at h
  simp only [List.length_singleton] at h
  rw [if_neg (show ¬((1:Nat) ≥ 2) by decide), if_pos (show ((1:Nat) == 1) = true by decide),
    if_neg (show ¬((1:Nat) ≥ 2) by decide)] at h
  simp only [List.head?_cons, Run.ofOption_some, Run.bind_ok] at h
  obtain ⟨s2, hp1, h⟩ := bind_eq_ok h
  obtain ⟨s3, hp2, h⟩ := bind_eq_ok h
  cases h
  obtain ⟨w, hw, hlt, rfl⟩ := pushWatch_ok hp1
  obtain ⟨w2, hw2, hlt2, rfl⟩ := pushWatch_ok hp2
  have hw2e : w2 = w ++ [s.clauses.length] := by
    have h1 : (s.watch.set l.id (w ++ [s.clauses.length])).get? l.id
        = some (w ++ [s.clauses.length]) := by
      rw [List.get?_eq_getElem?]
      exact List.getElem?_set_self hlt
    have h2 : (s.watch.set l.id (w ++ [s.clauses.length])).get? l.id = some w2 := hw2
    rw [h1] at h2
    cases h2
    rfl
  have key : ∀ (ws : List (List Nat)) (i : Nat) (a b : List Nat), i < ws.length →
      ((ws.set i a).set i b).getD i [] = b := by
    intro ws i a b hi
    rw [List.set_set, List.getD_eq_getElem?_getD, List.getElem?_set_self hi]
    rfl
  rw [watchAt_of_get (show s.watch.get? l.id = some w from hw)]
  show ((s.watch.set l.id (w ++ [s.clauses.length])).set l.id
      (w2 ++ [s.clauses.length])).getD l.id []
    = w ++ [s.clauses.length, s.clauses.length]
  rw [key s.watch l.id _ _ hlt, hw2e, List.append_assoc]
  rfl

/-- Claim C5 (amended): `init_watch` registers a clause id in a watch list only
when that clause has at least two literals; a learnt unit clause `[l]` is
instead registered by `learn_clause`, which appends its id to `watch[l.id]`
twice (both watched-literal slots hold `l`). -/
theorem c5_amended :
    (∀ (s s' : SatSolver), init_watch s = .ok s' → ∀ v cid, cid ∈ watchAt s' v →
      cid ∈ watchAt s v ∨ ∃ tc, s.clauses.get? cid = some tc ∧ 2 ≤ tc.clause.length) ∧
    (∀ (s : SatSolver) (l : Literal) (s' : SatSolver),
      s.vars.get? l.id = some .notAssigned → learn_clause s [l] = .ok s' →
      watchAt s' l.id = watchAt s l.id ++ [s.clauses.length, s.clauses.length]) :=
  ⟨fun s s' h v cid hmem => iwGo_watch s.clauses.length s 0 s' h v cid hmem,
   fun _ _ _ hvar h => learn_unit_watch hvar h⟩

/-- Witness for claim C5 (amended), on reachable states of the `P5` run:
a clause id watched after `init_watch` on the fresh solver comes from a clause
of length at least two, and learning the derived unit clause `¬x0` appends
clause id 2 twice to `watch[0]`. -/
theorem c5_witness :
    (0 ∈ watchAt s5new 0 ∨ ∃ tc, s5new.clauses.get? 0 = some tc ∧ 2 ≤ tc.clause.length) ∧
    watchAt (runStateD (learn_clause s5learn [⟨0, false⟩]) s5learn) 0
      = watchAt s5learn 0 ++ [s5learn.clauses.length, s5learn.clauses.length] :=
  ⟨c5_amended.1 s5new (runStateD (init_watch s5new) s5new) (by decide) 0 0 (by decide),
   c5_amended.2 s5learn ⟨0, false⟩ (runStateD (learn_clause s5learn [⟨0, false⟩]) s5learn)
     (by decide) (by decide)⟩

/-! ### Claim C9 (amended): batch propagation only pushes propagated entries -/

theorem stackExtends_rfl (st : List (Nat × AssignmentState)) : stackExtends st st :=
  ⟨[], rfl, fun e he => absurd he (List.not_mem_nil e)⟩

theorem stackExtends_trans {a b c : List (Nat × AssignmentState)}
    (h1 : stackExtends a b) (h2 : stackExtends b c) : stackExtends a c := by
  obtain ⟨p1, rfl, hp1⟩ := h1
  obtain ⟨p2, rfl, hp2⟩ := h2
  refine ⟨p2 ++ p1, (List.append_assoc p2 p1 a).symm, ?_⟩
  intro e he
  rcases List.mem_append.mp he with hm | hm
  · exact hp2 e hm
  · exact hp1 e hm

theorem visitClauses_stack (fuel id : Nat) (cids : List Nat) :
    ∀ (s : SatSolver) (q : List Nat) (s2 : SatSolver) (q2 : List Nat),
    visitClauses fuel id s q cids = .ok (.proceed s2 q2) →
    stackExtends s.dpllStack s2.dpllStack := by
  induction cids with
  | nil =>
    intro s q s2 q2 h
    cases h
    exact stackExtends_rfl s.dpllStack
  | cons cid rest ih =>
    intro s q s2 q2 h
    simp only [visitClauses, Run.bind_eq] at h
    obtain ⟨tc, -, h⟩ := bind_eq_ok h
    by_cases hlen : (tc.clause.length == 1) = true
    · rw [if_pos hlen] at h
      cases h
    · rw [if_neg hlen] at h
      obtain ⟨prev_i, -, h⟩ := bind_eq_ok h
      cases hslot : (if tc.w1.id == id then some 0 else if tc.w2.id == id then some 1
          else (none : Option Nat)) with
      | none =>
        rw [hslot] at h
        exact ih s q s2 q2 h
      | some slot =>
        rw [hslot] at h
        dsimp only [] at h
        obtain ⟨plit, -, h⟩ := bind_eq_ok h
        obtain ⟨v, -, h⟩ := bind_eq_ok h
        obtain ⟨vsign, -, h⟩ := bind_eq_ok h
        by_cases hsat : (plit.sign == vsign) = true
        · rw [if_pos hsat] at h
          exact ih s q s2 q2 h
        · rw [if_neg hsat] at h
          obtain ⟨next, -, h⟩ := bind_eq_ok h
          cases next with
          | some nl =>
            dsimp only [] at h
            by_cases he1 : (id == nl.id) = true
            · rw [if_pos he1] at h
              cases h
            · rw [if_neg he1] at h
              by_cases he2 : (!((if slot == 0 then tc.w1 else tc.w2).id == id)) = true
              · rw [if_pos he2] at h
                cases h
              · rw [if_neg he2] at h
                by_cases he3 : ((if slot == 0 then tc.w1 else tc.w2).id == nl.id) = true
                · rw [if_pos he3] at h
                  cases h
                · rw [if_neg he3] at h
                  obtain ⟨s1, hsw, h3⟩ := bind_eq_ok h
                  obtain ⟨wl, -, h3⟩ := bind_eq_ok h3
                  obtain ⟨sx, hswl, h3⟩ := bind_eq_ok h3
                  obtain ⟨sy, hpw, h3⟩ := bind_eq_ok h3
                  obtain ⟨tcs, -, rfl⟩ := setWatched_ok hsw
                  obtain ⟨-, rfl⟩ := setWatchList_ok hswl
                  obtain ⟨w, -, -, rfl⟩ := pushWatch_ok hpw
                  have hres := ih _ _ s2 q2 h3
                  exact hres
          | none =>
            dsimp only [] at h
            obtain ⟨v2, -, h⟩ := bind_eq_ok h
            cases v2 with
            | notAssigned =>
              dsimp only [] at h
              obtain ⟨s1, hsv, h3⟩ := bind_eq_ok h
              obtain ⟨-, rfl⟩ := setVar_ok hsv
              refine stackExtends_trans ?_ (ih _ _ s2 q2 h3)
              exact ⟨[((if slot == 0 then tc.w2 else tc.w1).id,
                  AssignmentState.propagated cid)], rfl,
                fun e he => ⟨cid, by rw [List.mem_singleton.mp he]⟩⟩
            | assigned sg lvl =>
              dsimp only [] at h
              by_cases hconf : (sg != (if slot == 0 then tc.w2 else tc.w1).sign) = true
              · rw [if_pos hconf] at h
                obtain ⟨⟨succeeded, s1⟩, hbt, h3⟩ := bind_eq_ok h
                dsimp only [] at h3
                by_cases hsucc : succeeded = true
                · rw [if_pos hsucc] at h3
                  cases h3
                · rw [if_neg hsucc] at h3
                  cases h3
              · rw [if_neg hconf] at h
                exact ih s q s2 q2 h

theorem propVisit_stack {fuel : Nat} {s : SatSolver} {id : Nat} {q : List Nat}
    {s2 : SatSolver} {q2 : List Nat} (h : propVisit fuel s id q = .ok (.proceed s2 q2)) :
    stackExtends s.dpllStack s2.dpllStack := by
  simp only [propVisit, Run.bind_eq] at h
  obtain ⟨snap, -, h⟩ := bind_eq_ok h
  exact visitClauses_stack fuel id snap s q s2 q2 h

theorem propLoop_clean_stack (fuel : Nat) :
    ∀ (s : SatSolver) (q visited log : List Nat) (s2 : SatSolver) (log2 : List Nat),
    propLoop fuel s q visited log = .ok (.clean s2 log2) →
    stackExtends s.dpllStack s2.dpllStack := by
  induction fuel with
  | zero => intro s q visited log s2 log2 h; cases h
  | succ fuel ih =>
    intro s q visited log s2 log2 h
    simp only [propLoop] at h
    cases hpop : dequePopBack q with
    | none =>
      rw [hpop] at h
      cases h
      exact stackExtends_rfl s.dpllStack
    | some idq =>
      rw [hpop] at h
      obtain ⟨id, q2⟩ := idq
      dsimp only [] at h
      by_cases hvis : visited.contains id = true
      · rw [if_pos hvis] at h
        exact ih s q2 visited log s2 log2 h
      · rw [if_neg hvis] at h
        simp only [Run.bind_eq] at h
        obtain ⟨vr, hpv, h2⟩ := bind_eq_ok h
        cases vr with
        | proceed s1 q3 =>
          dsimp only [] at h2
          exact stackExtends_trans (propVisit_stack hpv)
            (ih s1 q3 (id :: visited) (log ++ [id]) s2 log2 h2)
        | again s1 =>
          dsimp only [] at h2
          cases h2
        | unsatR s1 =>
          dsimp only [] at h2
          cases h2

theorem firstNonPropId_append : ∀ (pref old : List (Nat × AssignmentState)),
    (∀ e ∈ pref, ∃ c, e.2 = AssignmentState.propagated c) →
    firstNonPropId (pref ++ old) = firstNonPropId old := by
  intro pref
  induction pref with
  | nil =>
    intro old hp
    rfl
  | cons e pref ih =>
    intro old hp
    obtain ⟨c, hc⟩ := hp e (List.mem_cons_self e pref)
    obtain ⟨k, est⟩ := e
    cases hc
    show firstNonPropId (pref ++ old) = firstNonPropId old
    exact ih old (fun e he => hp e (List.mem_cons_of_mem _ he))

/-- Claim C9 (amended): when the propagation loop of `solve` finishes a batch
cleanly, every trail entry it pushed is `Propagated`, so the topmost
non-propagated entry of the trail is still the decision variable that was on
top when the batch started (the variable `solve` reads back at the loop head
is that decision variable, not the last propagated one). -/
theorem c9_amended (fuel : Nat) (s : SatSolver) (q visited log : List Nat)
    (s2 : SatSolver) (log2 : List Nat) (i : Nat) (st : AssignmentState)
    (hhead : s.dpllStack.head? = some (i, st))
    (hnp : ∀ c, st ≠ AssignmentState.propagated c)
    (hrun : propLoop fuel s q visited log = .ok (.clean s2 log2)) :
    firstNonPropId s2.dpllStack = some i := by
  obtain ⟨pref, heq, hp⟩ := propLoop_clean_stack fuel s q visited log s2 log2 hrun
  rw [heq, firstNonPropId_append pref s.dpllStack hp]
  cases hs : s.dpllStack with
  | nil =>
    rw [hs] at hhead
    cases hhead
  | cons e rest =>
    rw [hs] at hhead
    simp only [List.head?_cons] at hhead
    injection hhead with he
    subst he
    cases st with
    | first => rfl
    | second => rfl
    | propagated c => exact absurd rfl (hnp c)

/-- Witness for claim C9 (amended): on the reachable `P9` state right after the
decision `x0` is realized, the batch propagates variable 2 and pushes only a
`Propagated` entry, so the topmost non-propagated trail entry afterwards is
still variable 0. -/
theorem c9_witness :
    firstNonPropId (propCleanStateD
      (propLoop 50 s9state (dequePushBack [] 0) [] []) s9state).dpllStack = some 0 :=
  c9_amended 50 s9state (dequePushBack [] 0) [] []
    (propCleanStateD (propLoop 50 s9state (dequePushBack [] 0) [] []) s9state) [0, 2]
    0 AssignmentState.first (by decide)
    (fun c h => AssignmentState.noConfusion h) (by decide)

end Nyat
